import Mathlib

/-!
EldenRingDC: save-file decoder, poll loop and broadcast hub.

A shallow embedding of `main.go`, `service.go` and `web.go`.

Conventions of the embedding:

* a Go `[]byte` and a Go `string` are `List UInt8` (a Go string is its UTF-8 bytes);
* a Go expression that can panic at run time (index or slice out of range) is
  modelled by an `Option`, `none` being the panic;
* `int` is the 64-bit signed integer of the target platform: `wrapInt` is applied
  where the source computes on a caller-supplied `int`;
* a file handle is modelled by the bytes of the file at the time it was opened;
* the Go library functions `binary.LittleEndian.Uint16/Uint32`, `utf16.Decode`, the
  conversion `string(runes)` and `(*os.File).ReadAt` are modelled from their documented
  behaviour;
* the operating system's answers during a tick of the poll loop are an input of the
  tick (`TickEnv`), and what the tick does is a list of actions (`Effect`).
-/

namespace EldenRingDC

/-! ## Constants (`main.go`, lines 20-31) -/

abbrev SlotStartIndex : Nat := 0x310
abbrev SlotLength : Nat := 0x280000
abbrev SlotScanSize : Nat := 0x40000
abbrev NumSlots : Nat := 10
abbrev SaveHeaderStartIndex : Nat := 0x1901D0E
abbrev SaveHeaderLength : Nat := 0x24C
abbrev CharActiveStatusStartIndex : Nat := 0x1901D04
abbrev CharNameLength : Nat := 0x22
abbrev CharLevelOffset : Nat := 0x22
abbrev CharPlaytimeOffset : Nat := 0x26

/-- The `Profile` struct of `main.go`. `Name` holds the bytes of the Go string. -/
structure Profile where
  SlotIndex : Int
  Name : List UInt8
  Level : Nat
  PlayTime : Nat
  Deaths : Int
  Active : Bool
deriving DecidableEq

/-- The Go zero value `Profile{}`. -/
def Profile.zero : Profile := ⟨0, [], 0, 0, 0, false⟩

/-! ## Go primitives -/

/-- Go index expression `s[i]`; `none` is the panic "index out of range". -/
def index (s : List UInt8) (i : Nat) : Option UInt8 := s[i]?

/-- Go slice expression `s[lo:hi]`; `none` is the panic "slice bounds out of range".
The bound checked here is `len(s)`, which is at most the capacity Go checks against. -/
def slice (s : List UInt8) (lo hi : Nat) : Option (List UInt8) :=
  if lo ≤ hi ∧ hi ≤ s.length then some ((s.drop lo).take (hi - lo)) else none

/-- Go short-circuit `a && b` over operands whose evaluation may panic. -/
def land (a b : Option Bool) : Option Bool :=
  a.bind fun x => if x then b else some false

/-- The comparison `s[i] == v`. -/
def byteIs (s : List UInt8) (i : Nat) (v : UInt8) : Option Bool :=
  (index s i).map fun x => x == v

/-- Go `binary.LittleEndian.Uint16(b)`:
`_ = b[1]; return uint16(b[0]) | uint16(b[1])<<8`. -/
def Uint16 (b : List UInt8) : Option Nat :=
  (index b 1).bind fun _ =>
  (index b 0).bind fun b0 =>
  (index b 1).bind fun b1 =>
  some (b0.toNat ||| (b1.toNat <<< 8))

/-- Go `binary.LittleEndian.Uint32(b)`:
`_ = b[3]; return uint32(b[0]) | uint32(b[1])<<8 | uint32(b[2])<<16 | uint32(b[3])<<24`. -/
def Uint32 (b : List UInt8) : Option Nat :=
  (index b 3).bind fun _ =>
  (index b 0).bind fun b0 =>
  (index b 1).bind fun b1 =>
  (index b 2).bind fun b2 =>
  (index b 3).bind fun b3 =>
  some (b0.toNat ||| (b1.toNat <<< 8) ||| (b2.toNat <<< 16) ||| (b3.toNat <<< 24))

/-! ## `findDeaths` (`main.go`, lines 178-192) -/

/-- The condition of the `if` inside the scan loop of `findDeaths`. -/
def sentinelAt (slotData : List UInt8) (pos : Nat) : Option Bool :=
  land (byteIs slotData (pos + 4) 0xFF) <|
  land (byteIs slotData (pos + 5) 0xFF) <|
  land (byteIs slotData (pos + 6) 0xFF) <|
  land (byteIs slotData (pos + 7) 0xFF) <|
  land (byteIs slotData (pos + 8) 0x00) <|
  land (byteIs slotData (pos + 9) 0x08) <|
  land (byteIs slotData (pos + 10) 0x00) <|
  byteIs slotData (pos + 11) 0x00

/-- The loop `for pos := 0; pos <= len(slotData)-12; pos++` of `findDeaths`.
The first argument is the number of iterations still to run,
`len(slotData) - 12 + 1 - pos`; at `0` the loop condition is false and the
function falls through to `return 0`. -/
def findDeathsLoop (slotData : List UInt8) : Nat → Nat → Option Int
  | 0, _ => some 0
  | n + 1, pos =>
    (sentinelAt slotData pos).bind fun hit =>
      if hit then
        ((slice slotData pos (pos + 4)).bind Uint32).map Int.ofNat
      else findDeathsLoop slotData n (pos + 1)

/-- Go `findDeaths(slotData)`. -/
def findDeaths (slotData : List UInt8) : Option Int :=
  if slotData.length < 12 then some 0
  else findDeathsLoop slotData (slotData.length - 12 + 1) 0

/-! ## `decodeUTF16` (`main.go`, lines 194-209) -/

/-- The loop `for i := range u16s { u16s[i] = binary.LittleEndian.Uint16(b[i*2:]) }`.
The first argument is the number of iterations still to run, `len(u16s) - i`. -/
def fillU16s (b : List UInt8) : Nat → Nat → Option (List Nat)
  | 0, _ => some []
  | n + 1, i =>
    (slice b (i * 2) b.length).bind fun t =>
    (Uint16 t).bind fun u =>
    (fillU16s b n (i + 1)).map fun us => u :: us

abbrev surr1 : Nat := 0xd800
abbrev surr2 : Nat := 0xdc00
abbrev surr3 : Nat := 0xe000
abbrev surrSelf : Nat := 0x10000
abbrev replacementChar : Nat := 0xFFFD

/-- Go `utf16.DecodeRune(r1, r2)`:
`(r1-surr1)<<10 | (r2 - surr2) + surrSelf` for a valid pair (in Go, `|` and `+`
have the same precedence and associate to the left), else U+FFFD. -/
def DecodeRune (r1 r2 : Nat) : Nat :=
  if surr1 ≤ r1 ∧ r1 < surr2 ∧ surr2 ≤ r2 ∧ r2 < surr3 then
    (((r1 - surr1) <<< 10) ||| (r2 - surr2)) + surrSelf
  else replacementChar

/-- Go `utf16.Decode(s)`: a code unit outside the surrogate range is a rune; a high
surrogate followed by a low surrogate is decoded as a pair; any other surrogate
becomes U+FFFD. -/
def utf16Decode : List Nat → List Nat
  | [] => []
  | [r] => if r < surr1 ∨ surr3 ≤ r then [r] else [replacementChar]
  | r :: r2 :: rest =>
    if r < surr1 ∨ surr3 ≤ r then r :: utf16Decode (r2 :: rest)
    else if surr1 ≤ r ∧ r < surr2 ∧ surr2 ≤ r2 ∧ r2 < surr3 then
      DecodeRune r r2 :: utf16Decode rest
    else replacementChar :: utf16Decode (r2 :: rest)

/-- The three-byte UTF-8 form used by `encoderune`. -/
def encode3 (r : Nat) : List UInt8 :=
  [(0xE0 : UInt8) ||| UInt8.ofNat (r >>> 12), (0x80 : UInt8) ||| (UInt8.ofNat (r >>> 6) &&& 0x3F),
   (0x80 : UInt8) ||| (UInt8.ofNat r &&& 0x3F)]

/-- Go run-time `encoderune`, the UTF-8 encoder behind the conversion `string(runes)`:
a surrogate or a value above U+10FFFF is encoded as U+FFFD. -/
def encoderune (r : Nat) : List UInt8 :=
  if r ≤ 0x7F then [UInt8.ofNat r]
  else if r ≤ 0x7FF then [(0xC0 : UInt8) ||| UInt8.ofNat (r >>> 6), (0x80 : UInt8) ||| (UInt8.ofNat r &&& 0x3F)]
  else if r > 0x10FFFF ∨ (0xD800 ≤ r ∧ r ≤ 0xDFFF) then encode3 replacementChar
  else if r ≤ 0xFFFF then encode3 r
  else [(0xF0 : UInt8) ||| UInt8.ofNat (r >>> 18), (0x80 : UInt8) ||| (UInt8.ofNat (r >>> 12) &&& 0x3F),
        (0x80 : UInt8) ||| (UInt8.ofNat (r >>> 6) &&& 0x3F), (0x80 : UInt8) ||| (UInt8.ofNat r &&& 0x3F)]

/-- Go conversion `string(runes)`. -/
def stringOfRunes : List Nat → List UInt8
  | [] => []
  | r :: rs => encoderune r ++ stringOfRunes rs

/-- The loop `for i := 0; i < len(result); i++ { if result[i] == 0 { return result[:i] } }`
followed by `return result`. The first argument is the number of iterations still to
run, `len(result) - i`. -/
def nulScan (result : List UInt8) : Nat → Nat → Option (List UInt8)
  | 0, _ => some result
  | n + 1, i =>
    (index result i).bind fun c =>
      if c == 0 then slice result 0 i else nulScan result n (i + 1)

/-- Go `decodeUTF16(b)`. -/
def decodeUTF16 (b : List UInt8) : Option (List UInt8) :=
  (fillU16s b (b.length / 2) 0).bind fun u16s =>
    let result := stringOfRunes (utf16Decode u16s)
    if result.length > 0 then nulScan result result.length 0 else some result

/-! ## `readSlotData` (`main.go`, lines 109-139) -/

/-- Two's-complement wrap-around of 64-bit `int` arithmetic. -/
def wrapInt (x : Int) : Int :=
  let r := x % 2 ^ 64
  if r < 2 ^ 63 then r else r - 2 ^ 64

/-- Go `f.ReadAt(buf, off)` with `len(buf) = n`, on a file whose content is `f`.
`some buf` is the filled buffer when `err == nil`; `none` is `err != nil`: a negative
offset, or fewer than `n` bytes available at `off` (`io.EOF`). -/
def ReadAt (f : List UInt8) (n : Nat) (off : Int) : Option (List UInt8) :=
  if off < 0 then none
  else if off.toNat + n ≤ f.length then some ((f.drop off.toNat).take n) else none

/-- The pattern `if _, err := f.ReadAt(buf, off); err != nil { return Profile{}, false }`
followed by the rest of the function, `k`, on the filled buffer. -/
def onRead (r : Option (List UInt8)) (k : List UInt8 → Option (Profile × Bool)) :
    Option (Profile × Bool) :=
  match r with
  | none => some (Profile.zero, false)
  | some buf => k buf

/-- Go `readSlotData(f, slotIndex)` on a file whose content is `f`.
The outer `Option` is the panic channel; the result is the pair `(Profile, bool)`. -/
def readSlotData (f : List UInt8) (slotIndex : Int) : Option (Profile × Bool) :=
  onRead (ReadAt f 1 (wrapInt (CharActiveStatusStartIndex + slotIndex))) fun activeBuf =>
    (index activeBuf 0).bind fun a =>
    if a != 1 then some (Profile.zero, false)
    else
      onRead (ReadAt f SaveHeaderLength
          (wrapInt (SaveHeaderStartIndex + wrapInt (slotIndex * SaveHeaderLength)))) fun header =>
        (slice header 0 CharNameLength).bind fun nameBytes =>
        (decodeUTF16 nameBytes).bind fun name =>
        (slice header CharLevelOffset (CharLevelOffset + 2)).bind fun levelBytes =>
        (Uint16 levelBytes).bind fun level =>
        (slice header CharPlaytimeOffset (CharPlaytimeOffset + 4)).bind fun playBytes =>
        (Uint32 playBytes).bind fun playTime =>
        onRead (ReadAt f SlotScanSize
            (wrapInt (SlotStartIndex + wrapInt (slotIndex * SlotLength)))) fun scanBuf =>
          (findDeaths scanBuf).bind fun deaths =>
          some (⟨slotIndex, name, level, playTime, deaths, true⟩, true)

/-! ## `parseSaveData` (`main.go`, lines 141-176) -/

/-- One iteration of the loop `for i := range NumSlots` of `parseSaveData`:
`profiles` is the slice built so far. The slot index `i` ranges over `0 .. 9`, so
none of the offsets below can overflow. -/
def parseSlot (data : List UInt8) (profiles : List Profile) (i : Nat) :
    Option (List Profile) :=
  let activeIdx := CharActiveStatusStartIndex + i
  if activeIdx ≥ data.length then some profiles
  else
    (index data activeIdx).bind fun a =>
    if a != 1 then some profiles
    else
      let headerOffset := SaveHeaderStartIndex + (i * SaveHeaderLength)
      let slotOffset := SlotStartIndex + (i * SlotLength)
      if headerOffset + SaveHeaderLength > data.length then some profiles
      else
        (slice data headerOffset (headerOffset + CharNameLength)).bind fun nameBytes =>
        (decodeUTF16 nameBytes).bind fun name =>
        (slice data (headerOffset + CharLevelOffset)
            (headerOffset + CharLevelOffset + 2)).bind fun levelBytes =>
        (Uint16 levelBytes).bind fun level =>
        (slice data (headerOffset + CharPlaytimeOffset)
            (headerOffset + CharPlaytimeOffset + 4)).bind fun playBytes =>
        (Uint32 playBytes).bind fun playTime =>
        let endSlot := min (slotOffset + SlotLength) data.length
        (slice data slotOffset endSlot).bind fun slotData =>
        (findDeaths slotData).bind fun deaths =>
        some (profiles ++ [⟨(i : Int), name, level, playTime, deaths, true⟩])

/-- The loop of `parseSaveData` over the slot indices in `is`. -/
def parseSlots (data : List UInt8) : List Nat → List Profile → Option (List Profile)
  | [], profiles => some profiles
  | i :: is, profiles => (parseSlot data profiles i).bind fun ps => parseSlots data is ps

/-- Go `parseSaveData(data)`; `none` is a run-time panic. -/
def parseSaveData (data : List UInt8) : Option (List Profile) :=
  parseSlots data (List.range NumSlots) []

/-! ## The poll loop of `runService` (`service.go`, lines 38-106) -/

/-- The `Config` struct of `main.go`. -/
structure Config where
  CharacterSlot : Int
  EnableWebUI : Bool
  EnableTextFile : Bool
  WebPort : Int
  SavePath : String

/-- The loop-carried variables `savePath`, `lastModTime`, `lastDeaths`.
A `time.Time` is an integer instant; the zero value `time.Time{}` is `0`. -/
structure LoopState where
  savePath : String
  lastModTime : Int
  lastDeaths : Int
deriving DecidableEq

/-- The values of the three variables before the first tick (lines 38-40). -/
def initState : LoopState := ⟨"", 0, -1⟩

/-- What the operating system answers during one tick, in the order the tick asks:
`locate` is the result of `getSavePath(config)` (`none` for an error), `stat` the
modification time from `os.Stat(savePath)` (`none` for an error), `open1` and `open2`
the content of the file at the first and the second `os.Open` (`none` for an error). -/
structure TickEnv where
  locate : Option String
  stat : Option Int
  open1 : Option (List UInt8)
  open2 : Option (List UInt8)

/-- The observable actions of a tick, in program order. -/
inductive Effect where
  | getSavePath
  | printSavePath (path : String)
  | stat (path : String)
  | openFile (path : String)
  | readSlot (slot : Int) (result : Profile × Bool)
  | closeFile
  | sleep (ms : Nat)
  | counterUpdate (deaths : Int) (name : List UInt8)
  | writeFile (path : String) (deaths : Int)
  | printDeaths (name : List UInt8) (deaths : Int)
deriving DecidableEq

/-- Lines 43-50: the cached path, or a fresh one from `getSavePath`; `none` is the
`continue` on error. -/
def locateStep (st : LoopState) (env : TickEnv) : Option String × List Effect :=
  if st.savePath == "" then
    match env.locate with
    | none => (none, [Effect.getSavePath])
    | some p => (some p, [Effect.getSavePath, Effect.printSavePath p])
  else (some st.savePath, [])

/-- Lines 64-79: open, read the slot, and on `!ok` close, sleep 50 ms, reopen and read
again. The inner `none` is the `continue` after a failed `os.Open`; the outer `Option`
is the panic channel of `readSlotData`. -/
def readStep (config : Config) (savePath : String) (env : TickEnv) :
    Option (Option (Profile × Bool) × List Effect) :=
  match env.open1 with
  | none => some (none, [Effect.openFile savePath])
  | some f1 =>
    (readSlotData f1 config.CharacterSlot).bind fun r1 =>
    if !r1.2 then
      match env.open2 with
      | none =>
        some (none, [Effect.openFile savePath, Effect.readSlot config.CharacterSlot r1,
          Effect.closeFile, Effect.sleep 50, Effect.openFile savePath])
      | some f2 =>
        (readSlotData f2 config.CharacterSlot).bind fun r2 =>
        some (some r2, [Effect.openFile savePath, Effect.readSlot config.CharacterSlot r1,
          Effect.closeFile, Effect.sleep 50, Effect.openFile savePath,
          Effect.readSlot config.CharacterSlot r2, Effect.closeFile])
    else
      some (some r1, [Effect.openFile savePath, Effect.readSlot config.CharacterSlot r1,
        Effect.closeFile])

/-- Lines 85-105: commit the timestamp, then the de-duplication gate, the zero gate and
the publication. -/
def commitStep (config : Config) (deathFilePath : String) (st : LoopState)
    (savePath : String) (modTime : Int) (profile : Profile) : LoopState × List Effect :=
  if profile.Deaths == st.lastDeaths then
    (⟨savePath, modTime, st.lastDeaths⟩, [])
  else if profile.Deaths == 0 then
    (⟨savePath, modTime, profile.Deaths⟩, [])
  else
    (⟨savePath, modTime, profile.Deaths⟩,
      (if config.EnableWebUI then [Effect.counterUpdate profile.Deaths profile.Name] else [])
      ++ (if config.EnableTextFile then [Effect.writeFile deathFilePath profile.Deaths] else [])
      ++ [Effect.printDeaths profile.Name profile.Deaths])

/-- One iteration of `for range ticker.C` (lines 42-106): the next loop state and the
actions performed. The outer `Option` is the panic channel. -/
def tick (config : Config) (deathFilePath : String) (st : LoopState) (env : TickEnv) :
    Option (LoopState × List Effect) :=
  match locateStep st env with
  | (none, e0) => some (st, e0)
  | (some savePath, e0) =>
    match env.stat with
    | none => some (⟨"", 0, st.lastDeaths⟩, e0 ++ [Effect.stat savePath])
    | some modTime =>
      if !(modTime > st.lastModTime) then
        some (⟨savePath, st.lastModTime, st.lastDeaths⟩, e0 ++ [Effect.stat savePath])
      else
        (readStep config savePath env).bind fun r =>
        match r with
        | (none, e1) =>
          some (⟨savePath, st.lastModTime, st.lastDeaths⟩, e0 ++ [Effect.stat savePath] ++ e1)
        | (some (profile, ok), e1) =>
          if !ok then
            some (⟨savePath, st.lastModTime, st.lastDeaths⟩,
              e0 ++ [Effect.stat savePath] ++ e1)
          else
            let c := commitStep config deathFilePath st savePath modTime profile
            some (c.1, e0 ++ [Effect.stat savePath] ++ e1 ++ c.2)

/-- The loop over a finite sequence of ticks: the final state and the actions of each
tick, tick by tick. -/
def runTicks (config : Config) (deathFilePath : String) :
    LoopState → List TickEnv → Option (LoopState × List (List Effect))
  | st, [] => some (st, [])
  | st, env :: envs =>
    (tick config deathFilePath st env).bind fun r =>
    (runTicks config deathFilePath r.1 envs).map fun rs => (rs.1, r.2 :: rs.2)

/-- The tick publishes: it calls `counter.Update` or writes the text file. -/
def Effect.isPublish : Effect → Bool
  | Effect.counterUpdate _ _ => true
  | Effect.writeFile _ _ => true
  | _ => false

/-- The tick touches the save file: it opens it or reads the slot. -/
def Effect.isFileRead : Effect → Bool
  | Effect.openFile _ => true
  | Effect.readSlot _ _ => true
  | _ => false

/-- The tick reads the modification time of the save file. -/
def Effect.isStat : Effect → Bool
  | Effect.stat _ => true
  | _ => false

/-- The death counts handed to `counter.Update` in a list of actions. -/
def updates : List Effect → List Int
  | [] => []
  | Effect.counterUpdate d _ :: es => d :: updates es
  | _ :: es => updates es

/-- The death count of the successful read of a tick, if it has one. -/
def decoded : List Effect → Option Int
  | [] => none
  | Effect.readSlot _ (p, true) :: _ => some p.Deaths
  | _ :: es => decoded es

/-- The death count of the most recent successful read in a sequence of ticks (given
tick by tick, oldest first), if there is one. -/
def lastDecoded : List (List Effect) → Option Int
  | [] => none
  | tr :: trs =>
    match lastDecoded trs with
    | some d => some d
    | none => decoded tr

/-- A configuration that monitors slot 0 with both sinks enabled. -/
def demoConfig : Config := ⟨0, true, true, 8080, ""⟩

/-- A tick in which the save file is found at `ER0000.sl2`, has modification time `t`
and content `f` at both opens. -/
def readEnv (t : Int) (f : List UInt8) : TickEnv := ⟨some "ER0000.sl2", some t, some f, some f⟩

/-- The profile of slot 0 with an empty name, level 0, playtime 0 and `d` deaths. -/
def plainProfile (d : Int) : Profile := ⟨0, [], 0, 0, d, true⟩

/-! ## The broadcast hub (`web.go`, lines 17-59) -/

/-- A Go channel of `struct{}`: its identity, its capacity and the number of buffered
elements. -/
structure Chan where
  id : Nat
  cap : Nat
  len : Nat
deriving DecidableEq

/-- The `DeathCounter` struct; the mutex is held for the whole of every method, so a
method is one atomic step on this state. -/
structure DeathCounter where
  deaths : Int
  name : List UInt8
  listeners : List Chan

/-- A `select` whose only communication is the send `ch <- struct{}{}`, with a `default`
branch when `hasDefault`. The send proceeds when the buffer has room; otherwise the
`default` branch runs; `none`: without `default` the goroutine blocks. -/
def selectSend (ch : Chan) (hasDefault : Bool) : Option Chan :=
  if ch.len < ch.cap then some { ch with len := ch.len + 1 }
  else if hasDefault then some ch
  else none

/-- The loop `for _, ch := range dc.listeners { select { case ch <- struct{}{}: default: } }`;
`none`: blocked on a subscriber. -/
def notifyAll : List Chan → Option (List Chan)
  | [] => some []
  | ch :: rest =>
    (selectSend ch true).bind fun c => (notifyAll rest).map fun cs => c :: cs

/-- Go `(*DeathCounter).Update(deaths, name)`; `none`: blocked on a subscriber. -/
def DeathCounter.Update (dc : DeathCounter) (deaths : Int) (name : List UInt8) :
    Option DeathCounter :=
  (notifyAll dc.listeners).map fun ls => ⟨deaths, name, ls⟩

/-- Go `(*DeathCounter).Get()`. -/
def DeathCounter.Get (dc : DeathCounter) : Int × List UInt8 := (dc.deaths, dc.name)

/-- Go `(*DeathCounter).subscribe()`: `make(chan struct{}, 1)` appended to the
listeners; `id` is the identity of the fresh channel. -/
def DeathCounter.subscribe (dc : DeathCounter) (id : Nat) : DeathCounter × Chan :=
  ({ dc with listeners := dc.listeners ++ [⟨id, 1, 0⟩] }, ⟨id, 1, 0⟩)

/-- Go `(*DeathCounter).unsubscribe(ch)`: `slices.Index` then `slices.Delete`. -/
def DeathCounter.unsubscribe (dc : DeathCounter) (ch : Chan) : DeathCounter :=
  match dc.listeners.findIdx? (fun c => c.id == ch.id) with
  | some i => { dc with listeners := dc.listeners.eraseIdx i }
  | none => dc

/-- A hub with two subscribers: the channel of the first is empty, the channel of the
second already holds a notification. -/
def demoHub : DeathCounter := ⟨0, [], [⟨1, 1, 0⟩, ⟨2, 1, 1⟩]⟩

/-! ## Reference notions for the decoder -/

/-- The 16-bit little-endian code units of a byte string, two bytes at a time (a
trailing odd byte is ignored). -/
def codeUnits : List UInt8 → List Nat
  | a :: b :: rest => (a.toNat + 256 * b.toNat) :: codeUnits rest
  | _ => []

/-- The little-endian unsigned 32-bit value of `s[pos .. pos+4]`. -/
def leValue32 (s : List UInt8) (pos : Nat) : Nat :=
  (s.getD pos 0).toNat + 256 * (s.getD (pos + 1) 0).toNat
    + 65536 * (s.getD (pos + 2) 0).toNat + 16777216 * (s.getD (pos + 3) 0).toNat

/-- A slice with two sentinel matches: counter 1 in front of the tag at offset 1, and
counter 2 in front of the tag at offset 13. -/
def twoSentinels : List UInt8 :=
  [9, 1, 0, 0, 0, 0xFF, 0xFF, 0xFF, 0xFF, 0, 8, 0, 0,
      2, 0, 0, 0, 0xFF, 0xFF, 0xFF, 0xFF, 0, 8, 0, 0]

/-- The little-endian unsigned 16-bit value of `s[pos .. pos+2]`. -/
def leValue16 (s : List UInt8) (pos : Nat) : Nat :=
  (s.getD pos 0).toNat + 256 * (s.getD (pos + 1) 0).toNat

/-- Offset of the header of slot `i`: `SaveHeaderStartIndex + i*SaveHeaderLength`. -/
def headerOffsetOf (i : Nat) : Nat := SaveHeaderStartIndex + i * SaveHeaderLength

/-- Offset of the slot region of slot `i`: `SlotStartIndex + i*SlotLength`. -/
def slotOffsetOf (i : Nat) : Nat := SlotStartIndex + i * SlotLength

/-- The `CharNameLength` bytes of the name field of slot `i`. -/
def nameBytesOf (b : List UInt8) (i : Nat) : List UInt8 :=
  (b.drop (headerOffsetOf i)).take CharNameLength

/-- The first `SlotScanSize` bytes of the slot region of slot `i`. -/
def scanWindow (b : List UInt8) (i : Nat) : List UInt8 :=
  (b.drop (slotOffsetOf i)).take SlotScanSize

/-- The slot region of slot `i`, cut at the end of the buffer:
`data[slotOffset : min(slotOffset+SlotLength, len(data))]`. -/
def slotRegion (b : List UInt8) (i : Nat) : List UInt8 :=
  (b.drop (slotOffsetOf i)).take SlotLength

/-- The value `decodeUTF16` returns (it never panics, see `decodeUTF16_eq`). -/
def decodeName (nameBytes : List UInt8) : List UInt8 := (decodeUTF16 nameBytes).getD []

/-- The value `findDeaths` returns (it never panics, see `findDeaths_some`). -/
def countDeaths (slotData : List UInt8) : Int := (findDeaths slotData).getD 0

/-- Slot `i` is decodable: its active-flag byte is present and equal to 1 and the buffer
holds its whole header. -/
def SlotActive (b : List UInt8) (i : Nat) : Prop :=
  b[CharActiveStatusStartIndex + i]? = some 1 ∧ headerOffsetOf i + SaveHeaderLength ≤ b.length

instance (b : List UInt8) (i : Nat) : Decidable (SlotActive b i) := by
  unfold SlotActive; infer_instance

/-- The profile of slot `i` read from the header fields of `b`, with the given death
count. -/
def profileWith (b : List UInt8) (i : Nat) (deaths : Int) : Profile :=
  ⟨(i : Int), decodeName (nameBytesOf b i), leValue16 b (headerOffsetOf i + CharLevelOffset),
    leValue32 b (headerOffsetOf i + CharPlaytimeOffset), deaths, true⟩

/-! ## Concrete save images -/

/-- A run of `n` zero bytes. -/
def zeros (n : Nat) : List UInt8 := List.replicate n 0

/-- A save image with one active slot: `region` at the offset of the slot region of
`slot`, the byte 1 at the active flag of `slot`, `header` at the offset of the header
of `slot`, and zero bytes everywhere else; the image ends with the header. -/
def mkSave (slot : Nat) (region header : List UInt8) : List UInt8 :=
  zeros (slotOffsetOf slot) ++ region
    ++ zeros (CharActiveStatusStartIndex + slot - (slotOffsetOf slot + region.length))
    ++ [1]
    ++ zeros (headerOffsetOf slot - (CharActiveStatusStartIndex + slot + 1))
    ++ header

/-- The name field of the end-to-end scenario: "Tarnished" in UTF-16LE, NUL-padded to
`CharNameLength` bytes. -/
def tarnishedName : List UInt8 :=
  [0x54, 0, 0x61, 0, 0x72, 0, 0x6E, 0, 0x69, 0, 0x73, 0, 0x68, 0, 0x65, 0, 0x64, 0] ++ zeros 16

/-- The header of the end-to-end scenario: the name, level 45 at offset `0x22`,
playtime 3600 at offset `0x26`, zero bytes elsewhere. -/
def tarnishedHeader : List UInt8 :=
  tarnishedName ++ [45, 0] ++ [0, 0] ++ [0x10, 0x0E, 0, 0] ++ zeros (SaveHeaderLength - 0x2A)

/-- The scanned bytes of the end-to-end scenario: `64 00 00 00 FF FF FF FF 00 08 00 00`
at offset 120, zero bytes elsewhere. -/
def tarnishedRegion : List UInt8 :=
  zeros 120 ++ [0x64, 0, 0, 0, 0xFF, 0xFF, 0xFF, 0xFF, 0, 8, 0, 0] ++ zeros (SlotScanSize - 132)

/-- The save image of the end-to-end scenario, slot 2 active. -/
def tarnishedSave : List UInt8 := mkSave 2 tarnishedRegion tarnishedHeader

/-- The Go string "Tarnished". -/
def tarnished : List UInt8 := [0x54, 0x61, 0x72, 0x6E, 0x69, 0x73, 0x68, 0x65, 0x64]

/-- A file as long as the scan window of slot index 10 requires, whose only non-zero
byte is a 1 at offset `CharActiveStatusStartIndex + 10` (the first byte of the header
of slot 0). -/
def overrunSave : List UInt8 :=
  zeros (CharActiveStatusStartIndex + 10) ++ [1]
    ++ zeros (slotOffsetOf 10 + SlotScanSize - (CharActiveStatusStartIndex + 10 + 1))

/-- A file for slot index -1: the byte 1 at offset `CharActiveStatusStartIndex - 1`, zero
bytes elsewhere, ending at offset `SaveHeaderStartIndex`, where the header window of
slot index -1 ends. -/
def negOneSave : List UInt8 := zeros (CharActiveStatusStartIndex - 1) ++ ([1] ++ zeros 10)

/-- A buffer whose active flag of slot 0 is set but which ends 100 bytes later, before
the header of slot 0 is complete. -/
def truncatedSave : List UInt8 := zeros CharActiveStatusStartIndex ++ [1] ++ zeros 100

/-- A slot region whose only sentinel lies just behind the scan window: the counter 5
at offset `SlotScanSize`, the tag right after it, zero bytes elsewhere. -/
def deepRegion : List UInt8 :=
  zeros SlotScanSize ++ ([5, 0, 0, 0, 0xFF, 0xFF, 0xFF, 0xFF, 0, 8, 0, 0]
    ++ zeros (SlotLength - SlotScanSize - 12))

/-- A save image with slot 0 active, an all-zero header and `deepRegion` as the slot
region. -/
def deepSave : List UInt8 := mkSave 0 deepRegion (zeros SaveHeaderLength)

/-! ## Reference notions for the name round trip -/

/-- A Unicode scalar value: a code point up to U+10FFFF that is not a surrogate. -/
def IsScalar (r : Nat) : Prop := r < 0xD800 ∨ (0xE000 ≤ r ∧ r ≤ 0x10FFFF)

instance (r : Nat) : Decidable (IsScalar r) := by
  unfold IsScalar; infer_instance

/-- The UTF-16 code units of one scalar value: the value itself in the Basic
Multilingual Plane, else the surrogate pair
`surr1 + (r'>>10)&0x3ff, surr2 + r'&0x3ff` with `r' = r - 0x10000`. -/
def encodeRune16 (r : Nat) : List Nat :=
  if r < surrSelf then [r]
  else [surr1 + (((r - surrSelf) >>> 10) &&& 0x3ff), surr2 + ((r - surrSelf) &&& 0x3ff)]

/-- The UTF-16 encoding of a sequence of scalar values. -/
def encodeUTF16 : List Nat → List Nat
  | [] => []
  | r :: rs => encodeRune16 r ++ encodeUTF16 rs

/-- Code units written as little-endian byte pairs: low byte, then high byte. -/
def unitsLE : List Nat → List UInt8
  | [] => []
  | u :: us => UInt8.ofNat u :: UInt8.ofNat (u >>> 8) :: unitsLE us

/-- The name field: the bytes padded with trailing NUL bytes to `CharNameLength`. -/
def padName (bs : List UInt8) : List UInt8 := bs ++ zeros (CharNameLength - bs.length)

/-- The UTF-8 bytes of one scalar value, by the table of the UTF-8 standard, written
with division and remainder: one byte below U+0080, two below U+0800, three below
U+10000, four above. -/
def utf8Bytes (r : Nat) : List UInt8 :=
  if r < 0x80 then [UInt8.ofNat r]
  else if r < 0x800 then [UInt8.ofNat (0xC0 + r / 64), UInt8.ofNat (0x80 + r % 64)]
  else if r < 0x10000 then
    [UInt8.ofNat (0xE0 + r / 4096), UInt8.ofNat (0x80 + r / 64 % 64),
      UInt8.ofNat (0x80 + r % 64)]
  else
    [UInt8.ofNat (0xF0 + r / 262144), UInt8.ofNat (0x80 + r / 4096 % 64),
      UInt8.ofNat (0x80 + r / 64 % 64), UInt8.ofNat (0x80 + r % 64)]

/-- A name with a character of each UTF-8 length: `T` (one byte), `é` (two bytes),
U+892A (three bytes) and U+1F600 (four bytes, a surrogate pair in UTF-16). -/
def demoName : List Char := [Char.ofNat 0x54, Char.ofNat 0xE9, Char.ofNat 0x892A, Char.ofNat 0x1F600]

/-- A scan window that starts with the counter `d` followed by the sentinel tag. -/
def counterRegion (d : UInt8) : List UInt8 :=
  [d, 0, 0, 0, 0xFF, 0xFF, 0xFF, 0xFF, 0, 8, 0, 0] ++ zeros (SlotScanSize - 12)

/-- A save image with slot 0 active, an all-zero header and the death counter `d`. -/
def counterSave (d : UInt8) : List UInt8 := mkSave 0 (counterRegion d) (zeros SaveHeaderLength)

/-! ## Reference notions for the sentinel scan -/

/-- The sentinel tag `FF FF FF FF 00 08 00 00`. -/
def sentinel : List UInt8 := [0xFF, 0xFF, 0xFF, 0xFF, 0x00, 0x08, 0x00, 0x00]

/-- Position `pos` is a sentinel match of `s`: `pos + 12 ≤ len(s)` and
`s[pos+4 .. pos+12]` is the sentinel tag. -/
def SentinelMatch (s : List UInt8) (pos : Nat) : Prop :=
  pos + 12 ≤ s.length ∧ (s.drop (pos + 4)).take 8 = sentinel

instance (s : List UInt8) (pos : Nat) : Decidable (SentinelMatch s pos) := by
  unfold SentinelMatch; infer_instance

/-! ## Theorems -/

theorem or_shiftLeft (x c k : Nat) (hx : x < 2 ^ k) : x ||| (c <<< k) = x + 2 ^ k * c := by
  rw [Nat.shiftLeft_eq, Nat.mul_comm, Nat.lor_comm, ← Nat.mul_add_lt_is_or hx, Nat.add_comm]

theorem byte_or_shift16 (a b : UInt8) :
    a.toNat ||| (b.toNat <<< 8) = a.toNat + 256 * b.toNat := by
  have ha : a.toNat < 2 ^ 8 := a.val.isLt
  rw [or_shiftLeft _ _ _ ha]
  omega

theorem byte_or_shift32 (a b c d : UInt8) :
    a.toNat ||| (b.toNat <<< 8) ||| (c.toNat <<< 16) ||| (d.toNat <<< 24)
      = a.toNat + 256 * b.toNat + 65536 * c.toNat + 16777216 * d.toNat := by
  have ha : a.toNat < 2 ^ 8 := a.val.isLt
  have hb : b.toNat < 2 ^ 8 := b.val.isLt
  have hc : c.toNat < 2 ^ 8 := c.val.isLt
  rw [byte_or_shift16 a b, or_shiftLeft _ _ 16 (by omega), or_shiftLeft _ _ 24 (by omega)]
  omega

theorem index_of_lt (s : List UInt8) (i : Nat) (h : i < s.length) :
    index s i = some (s.getD i 0) := by
  simp [index, List.getD, List.getElem?_eq_getElem h]

theorem byteIs_of_lt (s : List UInt8) (i : Nat) (v : UInt8) (h : i < s.length) :
    byteIs s i v = some (s.getD i 0 == v) := by
  simp [byteIs, index_of_lt s i h]

theorem drop_take_eight (s : List UInt8) (k : Nat) (h : k + 8 ≤ s.length) :
    (s.drop k).take 8 = [s.getD k 0, s.getD (k + 1) 0, s.getD (k + 2) 0, s.getD (k + 3) 0,
      s.getD (k + 4) 0, s.getD (k + 5) 0, s.getD (k + 6) 0, s.getD (k + 7) 0] := by
  apply List.ext_getElem?
  intro n
  by_cases hn : n < 8
  · have h8 : n < 8 := hn
    interval_cases n <;>
      simp [List.getElem?_take, List.getElem?_drop, List.getD, List.getElem?_eq_getElem,
        show k < s.length by omega, show k + 1 < s.length by omega,
        show k + 2 < s.length by omega, show k + 3 < s.length by omega,
        show k + 4 < s.length by omega, show k + 5 < s.length by omega,
        show k + 6 < s.length by omega, show k + 7 < s.length by omega]
  · have : 8 ≤ n := by omega
    simp [List.getElem?_take, hn]
    omega

theorem sentinelMatch_iff (s : List UInt8) (pos : Nat) (h : pos + 12 ≤ s.length) :
    SentinelMatch s pos ↔
      (s.getD (pos + 4) 0 = 0xFF ∧ s.getD (pos + 5) 0 = 0xFF ∧ s.getD (pos + 6) 0 = 0xFF ∧
       s.getD (pos + 7) 0 = 0xFF ∧ s.getD (pos + 8) 0 = 0x00 ∧ s.getD (pos + 9) 0 = 0x08 ∧
       s.getD (pos + 10) 0 = 0x00 ∧ s.getD (pos + 11) 0 = 0x00) := by
  have hd := drop_take_eight s (pos + 4) (by omega)
  simp only [Nat.add_assoc, Nat.reduceAdd] at hd
  unfold SentinelMatch
  rw [hd]
  simp [sentinel, h]

theorem sentinelAt_of_le (s : List UInt8) (pos : Nat) (h : pos + 12 ≤ s.length) :
    sentinelAt s pos = some (decide (SentinelMatch s pos)) := by
  have hm := sentinelMatch_iff s pos h
  unfold sentinelAt
  rw [byteIs_of_lt s (pos + 4) _ (by omega), byteIs_of_lt s (pos + 5) _ (by omega),
    byteIs_of_lt s (pos + 6) _ (by omega), byteIs_of_lt s (pos + 7) _ (by omega),
    byteIs_of_lt s (pos + 8) _ (by omega), byteIs_of_lt s (pos + 9) _ (by omega),
    byteIs_of_lt s (pos + 10) _ (by omega), byteIs_of_lt s (pos + 11) _ (by omega)]
  simp only [hm]
  generalize s.getD (pos + 4) 0 = x4
  generalize s.getD (pos + 5) 0 = x5
  generalize s.getD (pos + 6) 0 = x6
  generalize s.getD (pos + 7) 0 = x7
  generalize s.getD (pos + 8) 0 = x8
  generalize s.getD (pos + 9) 0 = x9
  generalize s.getD (pos + 10) 0 = x10
  generalize s.getD (pos + 11) 0 = x11
  simp only [land, Option.bind_some]
  by_cases h4 : x4 = 0xFF
  swap
  · simp [h4]
  by_cases h5 : x5 = 0xFF
  swap
  · simp [h4, h5]
  by_cases h6 : x6 = 0xFF
  swap
  · simp [h4, h5, h6]
  by_cases h7 : x7 = 0xFF
  swap
  · simp [h4, h5, h6, h7]
  by_cases h8 : x8 = 0x00
  swap
  · simp [h4, h5, h6, h7, h8]
  by_cases h9 : x9 = 0x08
  swap
  · simp [h4, h5, h6, h7, h8, h9]
  by_cases h10 : x10 = 0x00
  swap
  · simp [h4, h5, h6, h7, h8, h9, h10]
  by_cases h11 : x11 = 0x00 <;> simp [h4, h5, h6, h7, h8, h9, h10, h11]

theorem slice_of_le (s : List UInt8) (lo hi : Nat) (h1 : lo ≤ hi) (h2 : hi ≤ s.length) :
    slice s lo hi = some ((s.drop lo).take (hi - lo)) := by
  simp [slice, h1, h2]

theorem Uint32_slice (s : List UInt8) (pos : Nat) (h : pos + 4 ≤ s.length) :
    (slice s pos (pos + 4)).bind Uint32 = some (leValue32 s pos) := by
  rw [slice_of_le s pos (pos + 4) (by omega) h]
  have e : ∀ k, k < 4 → ((s.drop pos).take (pos + 4 - pos))[k]? = some (s.getD (pos + k) 0) := by
    intro k hk
    have : pos + k < s.length := by omega
    simp [List.getElem?_take, List.getElem?_drop, List.getD, List.getElem?_eq_getElem, this, hk]
  have e0 := e 0 (by omega)
  have e1 := e 1 (by omega)
  have e2 := e 2 (by omega)
  have e3 := e 3 (by omega)
  simp only [Nat.add_zero] at e0
  simp only [Option.some_bind, Uint32, index, e0, e1, e2, e3, byte_or_shift32, leValue32]

/-- The scan loop, started at `pos` with exactly the iterations left up to
`len - 12`, returns `0` when no position from `pos` on is a match. -/
theorem findDeathsLoop_none (s : List UInt8) :
    ∀ n pos, pos + n + 11 = s.length → (∀ p, pos ≤ p → ¬ SentinelMatch s p) →
      findDeathsLoop s n pos = some 0 := by
  intro n
  induction n with
  | zero => intro pos _ _; rfl
  | succ n ih =>
    intro pos hlen hno
    have hp : ¬ SentinelMatch s pos := hno pos (Nat.le_refl _)
    rw [findDeathsLoop, sentinelAt_of_le s pos (by omega)]
    simp only [Option.some_bind, hp, decide_False, Bool.false_eq_true, if_false]
    exact ih (pos + 1) (by omega) (fun p hp => hno p (by omega))

/-- The scan loop returns the counter in front of the first match at or after `pos`. -/
theorem findDeathsLoop_first (s : List UInt8) :
    ∀ n pos pos0, pos + n + 11 = s.length → pos ≤ pos0 → SentinelMatch s pos0 →
      (∀ p, pos ≤ p → p < pos0 → ¬ SentinelMatch s p) →
      findDeathsLoop s n pos = some (leValue32 s pos0 : Int) := by
  intro n
  induction n with
  | zero =>
    intro pos pos0 hlen hle hm _
    have := hm.1
    omega
  | succ n ih =>
    intro pos pos0 hlen hle hm hno
    rw [findDeathsLoop, sentinelAt_of_le s pos (by omega)]
    by_cases hp : SentinelMatch s pos
    · have heq : pos0 = pos := by
        by_contra hne
        exact hno pos (Nat.le_refl _) (by omega) hp
      subst heq
      simp only [Option.some_bind, hp, decide_True, if_true]
      rw [Uint32_slice s pos0 (by omega)]
      rfl
    · simp only [Option.some_bind, hp, decide_False, Bool.false_eq_true, if_false]
      have hne : pos ≠ pos0 := fun h => hp (h ▸ hm)
      exact ih (pos + 1) pos0 (by omega) (by omega) hm (fun p h1 h2 => hno p (by omega) h2)

theorem findDeaths_first (s : List UInt8) (pos0 : Nat) (hm : SentinelMatch s pos0)
    (hno : ∀ p, p < pos0 → ¬ SentinelMatch s p) :
    findDeaths s = some (leValue32 s pos0 : Int) := by
  have hl := hm.1
  unfold findDeaths
  rw [if_neg (by omega)]
  exact findDeathsLoop_first s _ 0 pos0 (by omega) (Nat.zero_le _) hm (fun p _ h => hno p h)

theorem findDeaths_none (s : List UInt8) (hno : ∀ p, ¬ SentinelMatch s p) :
    findDeaths s = some 0 := by
  unfold findDeaths
  split
  · rfl
  · exact findDeathsLoop_none s _ 0 (by omega) (fun p _ => hno p)

/-- C2: `findDeaths` equals its reference definition. If some position is a sentinel
match, the result is the little-endian 32-bit value in front of the smallest matching
position; if no position matches, the result is `0`. The function never panics. -/
theorem findDeaths_reference (s : List UInt8) :
    (∀ pos0, SentinelMatch s pos0 → (∀ p, p < pos0 → ¬ SentinelMatch s p) →
        findDeaths s = some (leValue32 s pos0 : Int)) ∧
    ((∀ p, ¬ SentinelMatch s p) → findDeaths s = some 0) :=
  ⟨fun pos0 hm hno => findDeaths_first s pos0 hm hno, findDeaths_none s⟩

/-- With two sentinel matches, at offsets 1 and 13, `findDeaths` returns the counter of
the match at offset 1; a slice too short to hold a match gives 0. -/
theorem findDeaths_reference_witness :
    SentinelMatch twoSentinels 1 ∧ SentinelMatch twoSentinels 13 ∧
    (∀ p, p < 1 → ¬ SentinelMatch twoSentinels p) ∧
    findDeaths twoSentinels = some 1 ∧
    (∀ p, ¬ SentinelMatch [1, 2, 3] p) ∧ findDeaths [1, 2, 3] = some 0 := by
  have h1 : SentinelMatch twoSentinels 1 := by decide
  have h0 : ∀ p, p < 1 → ¬ SentinelMatch twoSentinels p := by
    intro p hp
    interval_cases p
    decide
  have hno : ∀ p, ¬ SentinelMatch [1, 2, 3] p := by
    intro p h
    have := h.1
    simp at this
  exact ⟨h1, by decide, h0, (findDeaths_reference twoSentinels).1 1 h1 h0, hno,
    (findDeaths_reference [1, 2, 3]).2 hno⟩

/-! ### Totality and closed form of `decodeUTF16` -/

theorem Uint16_cons (x y : UInt8) (t : List UInt8) :
    Uint16 (x :: y :: t) = some (x.toNat + 256 * y.toNat) := by
  simp [Uint16, index, byte_or_shift16]

theorem fillU16s_append (n : Nat) :
    ∀ (pre b : List UInt8) (i : Nat), pre.length = i * 2 → b.length / 2 = n →
      fillU16s (pre ++ b) n i = some (codeUnits b) := by
  induction n with
  | zero =>
    intro pre b i _ hb
    match b, hb with
    | [], _ => rfl
    | [_], _ => rfl
    | _ :: _ :: t, hb => simp at hb; omega
  | succ n ih =>
    intro pre b i hpre hb
    match b, hb with
    | [], hb => simp only [List.length_nil] at hb; omega
    | [_], hb => simp only [List.length_singleton] at hb; omega
    | x :: y :: t, hb =>
      have hn : t.length / 2 = n := by simp at hb; omega
      have hsl : slice (pre ++ x :: y :: t) (i * 2) (pre ++ x :: y :: t).length
          = some (x :: y :: t) := by
        rw [slice_of_le _ _ _ (by simp; omega) (Nat.le_refl _), List.drop_left' hpre]
        rw [List.take_of_length_le]
        simp only [List.length_append, List.length_cons]
        omega
      have hrec := ih (pre ++ [x, y]) t (i + 1) (by simp; omega) hn
      have happ : pre ++ [x, y] ++ t = pre ++ x :: y :: t := by simp
      rw [happ] at hrec
      rw [fillU16s, hsl]
      simp only [Option.some_bind, Uint16_cons, hrec, Option.map_some', codeUnits]

theorem fillU16s_eq (b : List UInt8) : fillU16s b (b.length / 2) 0 = some (codeUnits b) := by
  have := fillU16s_append (b.length / 2) [] b 0 rfl rfl
  simpa using this

theorem nulScan_append :
    ∀ (rest pre : List UInt8), (∀ c ∈ pre, c ≠ 0) →
      nulScan (pre ++ rest) rest.length pre.length
        = some (pre ++ rest.takeWhile fun c => c != 0) := by
  intro rest
  induction rest with
  | nil => intro pre _; simp [nulScan]
  | cons c rest ih =>
    intro pre hpre
    have hidx : index (pre ++ c :: rest) pre.length = some c := by
      unfold index
      rw [List.getElem?_append_right (Nat.le_refl _)]
      simp
    rw [List.length_cons, nulScan, hidx]
    by_cases hc : c = 0
    · subst hc
      simp [slice]
    · have hrec := ih (pre ++ [c]) (by
        intro d hd
        rcases List.mem_append.1 hd with h | h
        · exact hpre d h
        · simp at h; rw [h]; exact hc)
      simp only [List.length_append, List.length_singleton, List.append_assoc,
        List.singleton_append] at hrec
      simp [hc, hrec]

theorem decodeUTF16_eq (b : List UInt8) :
    decodeUTF16 b
      = some ((stringOfRunes (utf16Decode (codeUnits b))).takeWhile fun c => c != 0) := by
  unfold decodeUTF16
  rw [fillU16s_eq]
  simp only [Option.some_bind]
  split
  · have := nulScan_append (stringOfRunes (utf16Decode (codeUnits b))) [] (by simp)
    simpa using this
  · have : stringOfRunes (utf16Decode (codeUnits b)) = [] := by
      apply List.eq_nil_of_length_eq_zero
      omega
    rw [this]
    rfl

/-! ### Totality of `findDeaths` -/

theorem findDeathsLoop_some (s : List UInt8) :
    ∀ n pos, pos + n + 11 = s.length → ∃ d, findDeathsLoop s n pos = some d := by
  intro n
  induction n with
  | zero => intro pos _; exact ⟨0, rfl⟩
  | succ n ih =>
    intro pos hlen
    rw [findDeathsLoop, sentinelAt_of_le s pos (by omega)]
    by_cases hp : SentinelMatch s pos
    · refine ⟨(leValue32 s pos : Int), ?_⟩
      simp only [Option.some_bind, hp, decide_True, if_true]
      rw [Uint32_slice s pos (by omega)]
      rfl
    · simp only [Option.some_bind, hp, decide_False, Bool.false_eq_true, if_false]
      exact ih (pos + 1) (by omega)

theorem findDeaths_some (s : List UInt8) : ∃ d, findDeaths s = some d := by
  unfold findDeaths
  split
  · exact ⟨0, rfl⟩
  · exact findDeathsLoop_some s _ 0 (by omega)

theorem findDeaths_countDeaths (s : List UInt8) : findDeaths s = some (countDeaths s) := by
  obtain ⟨d, hd⟩ := findDeaths_some s
  simp [countDeaths, hd]

theorem decodeUTF16_decodeName (nb : List UInt8) : decodeUTF16 nb = some (decodeName nb) := by
  simp [decodeName, decodeUTF16_eq]

/-! ### Closed forms of the two decoders -/

theorem wrapInt_of_range (x : Int) (h1 : -2 ^ 63 ≤ x) (h2 : x < 2 ^ 63) : wrapInt x = x := by
  unfold wrapInt
  simp only
  split <;> omega

theorem onRead_none (k : List UInt8 → Option (Profile × Bool)) :
    onRead none k = some (Profile.zero, false) := rfl

theorem onRead_some (buf : List UInt8) (k : List UInt8 → Option (Profile × Bool)) :
    onRead (some buf) k = k buf := rfl

theorem ReadAt_natCast (f : List UInt8) (n k : Nat) :
    ReadAt f n (k : Int) = if k + n ≤ f.length then some ((f.drop k).take n) else none := by
  simp [ReadAt]

theorem getD_window (b : List UInt8) (off n k : Nat) (hk : k < n) (_h : off + n ≤ b.length) :
    ((b.drop off).take n).getD k 0 = b.getD (off + k) 0 := by
  simp [List.getD, List.getElem?_take, List.getElem?_drop, hk]

theorem Uint16_slice (s : List UInt8) (pos : Nat) (h : pos + 2 ≤ s.length) :
    (slice s pos (pos + 2)).bind Uint16 = some (leValue16 s pos) := by
  rw [slice_of_le s pos (pos + 2) (by omega) h]
  have e : ∀ k, k < 2 → ((s.drop pos).take (pos + 2 - pos))[k]? = some (s.getD (pos + k) 0) := by
    intro k hk
    have : pos + k < s.length := by omega
    simp [List.getElem?_take, List.getElem?_drop, List.getD, List.getElem?_eq_getElem, this, hk]
  have e0 := e 0 (by omega)
  have e1 := e 1 (by omega)
  simp only [Nat.add_zero] at e0
  simp only [Option.some_bind, Uint16, index, e0, e1, byte_or_shift16, leValue16]

theorem leValue16_window (b : List UInt8) (off n k : Nat) (hk : k + 2 ≤ n)
    (h : off + n ≤ b.length) :
    leValue16 ((b.drop off).take n) k = leValue16 b (off + k) := by
  unfold leValue16
  rw [getD_window b off n k (by omega) h, getD_window b off n (k + 1) (by omega) h]
  rfl

theorem leValue32_window (b : List UInt8) (off n k : Nat) (hk : k + 4 ≤ n)
    (h : off + n ≤ b.length) :
    leValue32 ((b.drop off).take n) k = leValue32 b (off + k) := by
  unfold leValue32
  rw [getD_window b off n k (by omega) h, getD_window b off n (k + 1) (by omega) h,
    getD_window b off n (k + 2) (by omega) h, getD_window b off n (k + 3) (by omega) h]
  rfl

theorem length_window (b : List UInt8) (off n : Nat) (h : off + n ≤ b.length) :
    ((b.drop off).take n).length = n := by
  simp; omega

/-- Closed form of `readSlotData` at a non-negative slot index: the three positioned
reads succeed exactly when the flag byte, the header and the scan window lie inside the
file. -/
theorem readSlotData_natCast (b : List UInt8) (i : Nat) (hi : i < 2 ^ 32) :
    readSlotData b (i : Int) = some (
      if b[CharActiveStatusStartIndex + i]? = some 1
          ∧ headerOffsetOf i + SaveHeaderLength ≤ b.length
          ∧ slotOffsetOf i + SlotScanSize ≤ b.length then
        (profileWith b i (countDeaths (scanWindow b i)), true)
      else (Profile.zero, false)) := by
  have o1 : wrapInt ((CharActiveStatusStartIndex : Nat) + (i : Int))
      = ((CharActiveStatusStartIndex + i : Nat) : Int) := by
    rw [wrapInt_of_range]
    · push_cast; rfl
    · simp only [CharActiveStatusStartIndex, Nat.cast_ofNat]; omega
    · simp only [CharActiveStatusStartIndex, Nat.cast_ofNat]; omega
  have o2 : wrapInt ((SaveHeaderStartIndex : Nat) + wrapInt ((i : Int) * (SaveHeaderLength : Nat)))
      = ((headerOffsetOf i : Nat) : Int) := by
    rw [wrapInt_of_range ((i : Int) * _), wrapInt_of_range]
    · unfold headerOffsetOf; push_cast; rfl
    · simp only [SaveHeaderStartIndex, SaveHeaderLength, Nat.cast_ofNat]; omega
    · simp only [SaveHeaderStartIndex, SaveHeaderLength, Nat.cast_ofNat]; omega
    · simp only [SaveHeaderLength, Nat.cast_ofNat]; omega
    · simp only [SaveHeaderLength, Nat.cast_ofNat]; omega
  have o3 : wrapInt ((SlotStartIndex : Nat) + wrapInt ((i : Int) * (SlotLength : Nat)))
      = ((slotOffsetOf i : Nat) : Int) := by
    rw [wrapInt_of_range ((i : Int) * _), wrapInt_of_range]
    · unfold slotOffsetOf; push_cast; rfl
    · simp only [SlotStartIndex, SlotLength, Nat.cast_ofNat]; omega
    · simp only [SlotStartIndex, SlotLength, Nat.cast_ofNat]; omega
    · simp only [SlotLength, Nat.cast_ofNat]; omega
    · simp only [SlotLength, Nat.cast_ofNat]; omega
  unfold readSlotData
  rw [o1, o2, o3, ReadAt_natCast, ReadAt_natCast, ReadAt_natCast]
  by_cases hA : CharActiveStatusStartIndex + i + 1 ≤ b.length
  swap
  · have hnone : b[CharActiveStatusStartIndex + i]? = none := by
      apply List.getElem?_eq_none; omega
    rw [if_neg hA, onRead_none, if_neg (by rw [hnone]; simp)]
  have hflag : index ((b.drop (CharActiveStatusStartIndex + i)).take 1) 0
      = some (b.getD (CharActiveStatusStartIndex + i) 0) := by
    rw [index_of_lt _ _ (by rw [length_window _ _ _ hA]; omega),
      getD_window b _ 1 0 (by omega) hA]
    rfl
  have hget : b[CharActiveStatusStartIndex + i]?
      = some (b.getD (CharActiveStatusStartIndex + i) 0) := by
    simp [List.getD, List.getElem?_eq_getElem (show CharActiveStatusStartIndex + i < b.length by omega)]
  rw [if_pos hA, onRead_some, hflag, Option.some_bind, hget]
  by_cases h1 : b.getD (CharActiveStatusStartIndex + i) 0 = 1
  swap
  · have hb : (b.getD (CharActiveStatusStartIndex + i) 0 != 1) = true := bne_iff_ne.mpr h1
    rw [if_pos hb, if_neg (fun h => h1 (Option.some.inj h.1))]
  have hb : (b.getD (CharActiveStatusStartIndex + i) 0 != 1) = false := by rw [h1]; rfl
  rw [hb]
  simp only [Bool.false_eq_true, if_false]
  by_cases hH : headerOffsetOf i + SaveHeaderLength ≤ b.length
  swap
  · rw [if_neg hH, onRead_none, if_neg (fun h => hH h.2.1)]
  have hlen := length_window b (headerOffsetOf i) SaveHeaderLength hH
  have hname : slice ((b.drop (headerOffsetOf i)).take SaveHeaderLength) 0 CharNameLength
      = some (nameBytesOf b i) := by
    rw [slice_of_le _ _ _ (Nat.zero_le _) (by rw [hlen]; decide), List.drop_zero, Nat.sub_zero,
      List.take_take]
    rfl
  have hlevel := Uint16_slice ((b.drop (headerOffsetOf i)).take SaveHeaderLength)
    CharLevelOffset (by rw [hlen]; decide)
  have hplay := Uint32_slice ((b.drop (headerOffsetOf i)).take SaveHeaderLength)
    CharPlaytimeOffset (by rw [hlen]; decide)
  rw [leValue16_window b _ _ _ (by decide) hH] at hlevel
  rw [leValue32_window b _ _ _ (by decide) hH] at hplay
  have hlevel2 : ∀ (k : Nat → Option (Profile × Bool)),
      ((slice ((b.drop (headerOffsetOf i)).take SaveHeaderLength) CharLevelOffset
        (CharLevelOffset + 2)).bind fun lb => (Uint16 lb).bind k)
        = k (leValue16 b (headerOffsetOf i + CharLevelOffset)) := by
    intro k
    rw [← Option.bind_assoc, hlevel, Option.some_bind]
  have hplay2 : ∀ (k : Nat → Option (Profile × Bool)),
      ((slice ((b.drop (headerOffsetOf i)).take SaveHeaderLength) CharPlaytimeOffset
        (CharPlaytimeOffset + 4)).bind fun pb => (Uint32 pb).bind k)
        = k (leValue32 b (headerOffsetOf i + CharPlaytimeOffset)) := by
    intro k
    rw [← Option.bind_assoc, hplay, Option.some_bind]
  rw [if_pos hH, onRead_some, hname, Option.some_bind, decodeUTF16_decodeName, Option.some_bind,
    hlevel2, hplay2]
  by_cases hS : slotOffsetOf i + SlotScanSize ≤ b.length
  · rw [if_pos hS, onRead_some, findDeaths_countDeaths, Option.some_bind,
      if_pos ⟨by rw [h1], hH, hS⟩]
    rfl
  · rw [if_neg hS, onRead_none, if_neg (fun h => hS h.2.2)]

theorem bind_bind_some {α β γ : Type} (x : Option α) (f : α → Option β) (v : β)
    (k : β → Option γ) (h : x.bind f = some v) :
    (x.bind fun a => (f a).bind k) = k v := by
  rw [← Option.bind_assoc, h, Option.some_bind]

/-- Closed form of one iteration of the loop of `parseSaveData`. -/
theorem parseSlot_eq (data : List UInt8) (ps : List Profile) (i : Nat) (hi : i < NumSlots) :
    parseSlot data ps i = some (
      if SlotActive data i then ps ++ [profileWith data i (countDeaths (slotRegion data i))]
      else ps) := by
  unfold parseSlot SlotActive headerOffsetOf
  dsimp only
  by_cases hA : CharActiveStatusStartIndex + i ≥ data.length
  · have hnone : data[CharActiveStatusStartIndex + i]? = none := by
      apply List.getElem?_eq_none; omega
    rw [if_pos hA, if_neg (by rw [hnone]; simp)]
  have hidx := index_of_lt data (CharActiveStatusStartIndex + i) (by omega)
  have hget : data[CharActiveStatusStartIndex + i]?
      = some (data.getD (CharActiveStatusStartIndex + i) 0) := hidx
  rw [if_neg hA, hidx, Option.some_bind]
  simp only [hget]
  by_cases h1 : data.getD (CharActiveStatusStartIndex + i) 0 = 1
  swap
  · have hb : (data.getD (CharActiveStatusStartIndex + i) 0 != 1) = true := bne_iff_ne.mpr h1
    rw [if_pos hb, if_neg (fun h => h1 (Option.some.inj h.1))]
  have hb : (data.getD (CharActiveStatusStartIndex + i) 0 != 1) = false := by rw [h1]; rfl
  rw [hb]
  simp only [Bool.false_eq_true, if_false]
  by_cases hH : SaveHeaderStartIndex + i * SaveHeaderLength + SaveHeaderLength > data.length
  · rw [if_pos hH, if_neg (fun h => by have := h.2; omega)]
  have hH2 : SaveHeaderStartIndex + i * SaveHeaderLength + SaveHeaderLength ≤ data.length := by
    omega
  have hname : slice data (SaveHeaderStartIndex + i * SaveHeaderLength)
      (SaveHeaderStartIndex + i * SaveHeaderLength + CharNameLength)
      = some (nameBytesOf data i) := by
    rw [slice_of_le _ _ _ (by omega) (by simp only [SaveHeaderLength, CharNameLength] at *; omega),
      Nat.add_sub_cancel_left]
    rfl
  have hlevel := Uint16_slice data (SaveHeaderStartIndex + i * SaveHeaderLength + CharLevelOffset)
    (by simp only [SaveHeaderLength, CharLevelOffset] at *; omega)
  have hplay := Uint32_slice data (SaveHeaderStartIndex + i * SaveHeaderLength + CharPlaytimeOffset)
    (by simp only [SaveHeaderLength, CharPlaytimeOffset] at *; omega)
  have hS : SlotStartIndex + i * SlotLength ≤ data.length := by
    simp only [SlotStartIndex, SlotLength, SaveHeaderStartIndex, SaveHeaderLength, NumSlots] at *
    omega
  have hslot : slice data (SlotStartIndex + i * SlotLength)
      (min (SlotStartIndex + i * SlotLength + SlotLength) data.length)
      = some (slotRegion data i) := by
    rw [slice_of_le _ _ _ (by omega) (by omega)]
    unfold slotRegion slotOffsetOf
    congr 1
    rw [List.take_eq_take]
    simp only [List.length_drop]
    omega
  rw [if_neg hH, hname, Option.some_bind, decodeUTF16_decodeName, Option.some_bind,
    bind_bind_some _ _ _ _ hlevel, bind_bind_some _ _ _ _ hplay, hslot, Option.some_bind,
    findDeaths_countDeaths, Option.some_bind, if_pos ⟨by rw [h1], hH2⟩]
  rfl

/-- Closed form of the loop of `parseSaveData` over any list of slot indices below
`NumSlots`. -/
theorem parseSlots_eq (data : List UInt8) :
    ∀ (is : List Nat) (ps : List Profile), (∀ i ∈ is, i < NumSlots) →
      parseSlots data is ps = some (ps ++ is.filterMap fun i =>
        if SlotActive data i then
          some (profileWith data i (countDeaths (slotRegion data i)))
        else none) := by
  intro is
  induction is with
  | nil => intro ps _; simp [parseSlots]
  | cons i is ih =>
    intro ps h
    rw [parseSlots, parseSlot_eq data ps i (h i (List.mem_cons_self _ _)), Option.some_bind,
      ih _ (fun j hj => h j (List.mem_cons_of_mem _ hj))]
    by_cases hact : SlotActive data i
    · simp [hact, List.filterMap_cons]
    · simp [hact, List.filterMap_cons]

theorem parseSaveData_eq (data : List UInt8) :
    parseSaveData data = some ((List.range NumSlots).filterMap fun i =>
      if SlotActive data i then
        some (profileWith data i (countDeaths (slotRegion data i)))
      else none) := by
  unfold parseSaveData
  rw [parseSlots_eq data _ [] (fun i hi => List.mem_range.1 hi)]
  rfl

/-! ### The scan only depends on the bytes up to the first match -/

theorem sentinelMatch_take (s : List UInt8) (n pos : Nat) (h : pos + 12 ≤ n) :
    SentinelMatch (s.take n) pos ↔ SentinelMatch s pos := by
  unfold SentinelMatch
  have e : ((s.take n).drop (pos + 4)).take 8 = (s.drop (pos + 4)).take 8 := by
    rw [List.drop_take, List.take_take]
    congr 1
    omega
  rw [e, List.length_take]
  constructor
  · rintro ⟨h1, h2⟩
    exact ⟨by omega, h2⟩
  · rintro ⟨h1, h2⟩
    exact ⟨by omega, h2⟩

theorem sentinelMatch_of_take (s : List UInt8) (n pos : Nat) (h : SentinelMatch (s.take n) pos) :
    SentinelMatch s pos ∧ pos + 12 ≤ n := by
  have hl : pos + 12 ≤ n := by
    have := h.1
    rw [List.length_take] at this
    omega
  exact ⟨(sentinelMatch_take s n pos hl).1 h, hl⟩

theorem leValue32_take (s : List UInt8) (n pos : Nat) (h : pos + 4 ≤ n) :
    leValue32 (s.take n) pos = leValue32 s pos := by
  have e : ∀ k, k < 4 → (s.take n).getD (pos + k) 0 = s.getD (pos + k) 0 := by
    intro k hk
    simp [List.getD, List.getElem?_take, show pos + k < n by omega]
  have e0 := e 0 (by omega)
  simp only [Nat.add_zero] at e0
  simp only [leValue32, e0, e 1 (by omega), e 2 (by omega), e 3 (by omega)]

/-- Cutting the scanned bytes after a sentinel match, or cutting bytes that hold no
match at all, does not change the result of `findDeaths`. -/
theorem findDeaths_take (s : List UInt8) (n : Nat)
    (h : (∃ pos, SentinelMatch s pos ∧ pos + 12 ≤ n) ∨ ∀ pos, ¬ SentinelMatch s pos) :
    findDeaths (s.take n) = findDeaths s := by
  rcases h with ⟨pos, hm, hn⟩ | hno
  · have hex : ∃ p, SentinelMatch s p := ⟨pos, hm⟩
    have hfirst := Nat.find_spec hex
    have hmin : ∀ p, p < Nat.find hex → ¬ SentinelMatch s p := fun p hp => Nat.find_min hex hp
    have hle : Nat.find hex ≤ pos := Nat.find_min' hex hm
    rw [findDeaths_first s (Nat.find hex) hfirst hmin,
      findDeaths_first (s.take n) (Nat.find hex)
        ((sentinelMatch_take s n _ (by omega)).2 hfirst)
        (fun p hp hq => hmin p hp (sentinelMatch_of_take s n p hq).1),
      leValue32_take s n _ (by omega)]
  · rw [findDeaths_none s hno,
      findDeaths_none (s.take n) (fun p hq => hno p (sentinelMatch_of_take s n p hq).1)]

theorem findDeaths_append_tail (p t : List UInt8) (h : ∃ pos, SentinelMatch p pos) :
    findDeaths (p ++ t) = findDeaths p := by
  obtain ⟨pos, hm⟩ := h
  have hm2 : SentinelMatch ((p ++ t).take p.length) pos := by
    rw [List.take_left' rfl]; exact hm
  have := findDeaths_take (p ++ t) p.length
    (Or.inl ⟨pos, (sentinelMatch_of_take _ _ _ hm2).1, hm.1⟩)
  rw [List.take_left' rfl] at this
  exact this.symm

theorem findDeaths_of_no_FF (s : List UInt8) (h : ∀ x ∈ s, x ≠ 0xFF) :
    findDeaths s = some 0 := by
  apply findDeaths_none
  intro pos hm
  have hl := hm.1
  have h4 := ((sentinelMatch_iff s pos hl).1 hm).1
  have hmem : s.getD (pos + 4) 0 ∈ s := by
    have hlt : pos + 4 < s.length := by omega
    have : s.getD (pos + 4) 0 = s[pos + 4] := by
      simp [List.getD, List.getElem?_eq_getElem hlt]
    rw [this]
    exact List.getElem_mem _
  exact h _ hmem h4

/-! ### Save images with one active slot -/

theorem length_zeros (n : Nat) : (zeros n).length = n := by
  unfold zeros
  exact List.length_replicate n 0

theorem mem_zeros {n : Nat} {x : UInt8} (h : x ∈ zeros n) : x = 0 := by
  unfold zeros at h
  exact (List.mem_replicate.1 h).2

theorem getElem?_zeros (n k : Nat) (h : k < n) : (zeros n)[k]? = some 0 := by
  unfold zeros
  rw [List.getElem?_replicate, if_pos h]

theorem headerOffsetOf_gt (slot : Nat) (hslot : slot < NumSlots) :
    CharActiveStatusStartIndex + slot + 1 ≤ headerOffsetOf slot := by
  simp only [headerOffsetOf, SaveHeaderStartIndex, CharActiveStatusStartIndex,
    SaveHeaderLength, NumSlots] at *
  omega

theorem mkSave_length (slot : Nat) (region header : List UInt8) (hslot : slot < NumSlots)
    (hreg : slotOffsetOf slot + region.length ≤ CharActiveStatusStartIndex + slot) :
    (mkSave slot region header).length = headerOffsetOf slot + header.length := by
  have := headerOffsetOf_gt slot hslot
  simp only [mkSave, List.length_append, length_zeros, List.length_singleton]
  omega

theorem mkSave_flag (slot : Nat) (region header : List UInt8)
    (hreg : slotOffsetOf slot + region.length ≤ CharActiveStatusStartIndex + slot) :
    (mkSave slot region header)[CharActiveStatusStartIndex + slot]? = some 1 := by
  have hlen : (zeros (slotOffsetOf slot) ++ region
      ++ zeros (CharActiveStatusStartIndex + slot - (slotOffsetOf slot + region.length))).length
      = CharActiveStatusStartIndex + slot := by
    simp only [List.length_append, length_zeros]
    omega
  unfold mkSave
  rw [List.append_assoc _ [1], List.append_assoc _ ([1] ++ _),
    List.getElem?_append_right (by rw [hlen]), hlen, Nat.sub_self]
  simp only [List.singleton_append, List.cons_append, List.getElem?_cons_zero]

theorem mkSave_later_flag (slot i : Nat) (region header : List UInt8) (hi : i < NumSlots)
    (hsi : slot < i)
    (hreg : slotOffsetOf slot + region.length ≤ CharActiveStatusStartIndex + slot) :
    (mkSave slot region header)[CharActiveStatusStartIndex + i]? = some 0 := by
  have hlen : (zeros (slotOffsetOf slot) ++ region
      ++ zeros (CharActiveStatusStartIndex + slot - (slotOffsetOf slot + region.length))
      ++ [1]).length = CharActiveStatusStartIndex + slot + 1 := by
    simp only [List.length_append, length_zeros, List.length_singleton]
    omega
  have hgap : CharActiveStatusStartIndex + i - (CharActiveStatusStartIndex + slot + 1)
      < headerOffsetOf slot - (CharActiveStatusStartIndex + slot + 1) := by
    simp only [headerOffsetOf, SaveHeaderStartIndex, CharActiveStatusStartIndex,
      SaveHeaderLength, NumSlots] at *
    omega
  unfold mkSave
  rw [List.append_assoc _ (zeros _) header,
    List.getElem?_append_right (by rw [hlen]; omega), hlen,
    List.getElem?_append_left (by rw [length_zeros]; exact hgap),
    getElem?_zeros _ _ hgap]

theorem mkSave_drop_header (slot : Nat) (region header : List UInt8) (hslot : slot < NumSlots)
    (hreg : slotOffsetOf slot + region.length ≤ CharActiveStatusStartIndex + slot) :
    (mkSave slot region header).drop (headerOffsetOf slot) = header := by
  have := headerOffsetOf_gt slot hslot
  unfold mkSave
  apply List.drop_left'
  simp only [List.length_append, length_zeros, List.length_singleton]
  omega

theorem mkSave_take_region (slot n : Nat) (region header : List UInt8)
    (hn : n ≤ region.length) :
    ((mkSave slot region header).drop (slotOffsetOf slot)).take n = region.take n := by
  unfold mkSave
  rw [List.append_assoc, List.append_assoc, List.append_assoc, List.append_assoc,
    List.drop_left' (length_zeros _), List.take_append_of_le_length hn]

/-- What `readSlotData` returns on a save image with one active slot. -/
theorem readSlotData_mkSave (slot : Nat) (region header : List UInt8) (hslot : slot < NumSlots)
    (hscan : SlotScanSize ≤ region.length)
    (hreg : slotOffsetOf slot + region.length ≤ CharActiveStatusStartIndex + slot)
    (hhdr : header.length = SaveHeaderLength) :
    readSlotData (mkSave slot region header) (slot : Int) = some
      (⟨(slot : Int), decodeName (header.take CharNameLength), leValue16 header CharLevelOffset,
        leValue32 header CharPlaytimeOffset, countDeaths (region.take SlotScanSize), true⟩,
       true) := by
  have hlen := mkSave_length slot region header hslot hreg
  have hH : headerOffsetOf slot + SaveHeaderLength ≤ (mkSave slot region header).length := by
    rw [hlen, hhdr]
  have hwin : ((mkSave slot region header).drop (headerOffsetOf slot)).take SaveHeaderLength
      = header := by
    rw [mkSave_drop_header slot region header hslot hreg, List.take_of_length_le (by rw [hhdr])]
  have hS : slotOffsetOf slot + SlotScanSize ≤ (mkSave slot region header).length := by
    have := headerOffsetOf_gt slot hslot
    rw [hlen]
    omega
  rw [readSlotData_natCast _ slot (by simp only [NumSlots] at hslot; omega),
    if_pos ⟨mkSave_flag slot region header hreg, hH, hS⟩]
  unfold profileWith nameBytesOf scanWindow
  rw [mkSave_drop_header slot region header hslot hreg, mkSave_take_region _ _ _ _ hscan,
    ← leValue16_window _ _ SaveHeaderLength _ (by decide) hH,
    ← leValue32_window _ _ SaveHeaderLength _ (by decide) hH, hwin]

/-! ### The end-to-end scenario -/

set_option maxRecDepth 100000 in
theorem findDeaths_tarnishedHead :
    findDeaths (zeros 120 ++ [0x64, 0, 0, 0, 0xFF, 0xFF, 0xFF, 0xFF, 0, 8, 0, 0]) = some 100 := by
  decide

set_option maxRecDepth 100000 in
theorem sentinelMatch_tarnishedHead :
    SentinelMatch (zeros 120 ++ [0x64, 0, 0, 0, 0xFF, 0xFF, 0xFF, 0xFF, 0, 8, 0, 0]) 120 := by
  decide

theorem length_tarnishedHeader : tarnishedHeader.length = SaveHeaderLength := by
  simp only [tarnishedHeader, tarnishedName, List.length_append, length_zeros, List.length_cons,
    List.length_nil]
  decide

theorem length_tarnishedRegion : tarnishedRegion.length = SlotScanSize := by
  simp only [tarnishedRegion, List.length_append, length_zeros, List.length_cons,
    List.length_nil]
  decide

theorem countDeaths_tarnishedRegion : countDeaths (tarnishedRegion.take SlotScanSize) = 100 := by
  rw [List.take_of_length_le (by rw [length_tarnishedRegion])]
  unfold countDeaths tarnishedRegion
  rw [findDeaths_append_tail _ _ ⟨120, sentinelMatch_tarnishedHead⟩, findDeaths_tarnishedHead]
  rfl

theorem readSlotData_tarnishedSave :
    readSlotData tarnishedSave 2 = some (⟨2, tarnished, 45, 3600, 100, true⟩, true) := by
  have h := readSlotData_mkSave 2 tarnishedRegion tarnishedHeader (by decide)
    (by rw [length_tarnishedRegion]) (by rw [length_tarnishedRegion]; decide)
    length_tarnishedHeader
  have hn : decodeName (tarnishedHeader.take CharNameLength) = tarnished := by decide
  have hl : leValue16 tarnishedHeader CharLevelOffset = 45 := by decide
  have hp : leValue32 tarnishedHeader CharPlaytimeOffset = 3600 := by decide
  rw [hn, hl, hp, countDeaths_tarnishedRegion] at h
  exact h

/-! ### Claims about the decoder -/

/-- C3: for a slot index `i` below `NumSlots` and a file that holds the whole header of
slot `i` and has byte 1 at `CharActiveStatusStartIndex + i`, `readSlotData` returns
`found = true` with the profile whose name is `decodeUTF16` of the `0x22` bytes at the
header offset `h`, whose level is the little-endian 16-bit value at `h + 0x22`, whose
playtime is the little-endian 32-bit value at `h + 0x26`, and whose death count is
`findDeaths` of the first `SlotScanSize` bytes at the slot offset. -/
theorem readSlotData_active (b : List UInt8) (i : Nat) (hi : i < NumSlots)
    (hlen : SaveHeaderStartIndex + (i + 1) * SaveHeaderLength ≤ b.length)
    (hact : b[CharActiveStatusStartIndex + i]? = some 1) :
    ∃ name deaths,
      decodeUTF16 ((b.drop (headerOffsetOf i)).take CharNameLength) = some name ∧
      findDeaths ((b.drop (slotOffsetOf i)).take SlotScanSize) = some deaths ∧
      readSlotData b (i : Int) = some
        (⟨(i : Int), name, leValue16 b (headerOffsetOf i + CharLevelOffset),
          leValue32 b (headerOffsetOf i + CharPlaytimeOffset), deaths, true⟩, true) := by
  have hH : headerOffsetOf i + SaveHeaderLength ≤ b.length := by
    unfold headerOffsetOf
    rw [Nat.add_mul, Nat.one_mul, ← Nat.add_assoc] at hlen
    exact hlen
  have hS : slotOffsetOf i + SlotScanSize ≤ b.length := by
    simp only [slotOffsetOf, headerOffsetOf, SlotStartIndex, SlotLength, SlotScanSize,
      SaveHeaderStartIndex, SaveHeaderLength, NumSlots] at *
    omega
  refine ⟨decodeName ((b.drop (headerOffsetOf i)).take CharNameLength),
    countDeaths ((b.drop (slotOffsetOf i)).take SlotScanSize),
    decodeUTF16_decodeName _, findDeaths_countDeaths _, ?_⟩
  rw [readSlotData_natCast b i (by simp only [NumSlots] at hi; omega), if_pos ⟨hact, hH, hS⟩]
  rfl

/-- The end-to-end scenario of C3: slot 2 of `tarnishedSave` decodes to
`Profile{2, "Tarnished", 45, 3600, 100, true}`. -/
theorem readSlotData_active_witness :
    2 < NumSlots ∧ SaveHeaderStartIndex + (2 + 1) * SaveHeaderLength ≤ tarnishedSave.length ∧
    tarnishedSave[CharActiveStatusStartIndex + 2]? = some 1 ∧
    (∃ name deaths,
      decodeUTF16 ((tarnishedSave.drop (headerOffsetOf 2)).take CharNameLength) = some name ∧
      findDeaths ((tarnishedSave.drop (slotOffsetOf 2)).take SlotScanSize) = some deaths ∧
      readSlotData tarnishedSave ((2 : Nat) : Int) = some
        (⟨((2 : Nat) : Int), name, leValue16 tarnishedSave (headerOffsetOf 2 + CharLevelOffset),
          leValue32 tarnishedSave (headerOffsetOf 2 + CharPlaytimeOffset), deaths, true⟩, true)) ∧
    readSlotData tarnishedSave 2 = some (⟨2, tarnished, 45, 3600, 100, true⟩, true) := by
  have hreg : slotOffsetOf 2 + tarnishedRegion.length ≤ CharActiveStatusStartIndex + 2 := by
    rw [length_tarnishedRegion]; decide
  have h1 : 2 < NumSlots := by decide
  have h2 : SaveHeaderStartIndex + (2 + 1) * SaveHeaderLength ≤ tarnishedSave.length := by
    unfold tarnishedSave
    rw [mkSave_length 2 _ _ h1 hreg, length_tarnishedHeader]
    decide
  have h3 : tarnishedSave[CharActiveStatusStartIndex + 2]? = some 1 :=
    mkSave_flag 2 _ _ hreg
  exact ⟨h1, h2, h3, readSlotData_active tarnishedSave 2 h1 h2 h3, readSlotData_tarnishedSave⟩

theorem mem_filterMap_slot (data : List UInt8) (n : Nat) (p : Profile)
    (hp : p ∈ (List.range n).filterMap fun i =>
      if SlotActive data i then
        some (profileWith data i (countDeaths (slotRegion data i)))
      else none) :
    ∃ i, i < n ∧ SlotActive data i ∧ p = profileWith data i (countDeaths (slotRegion data i)) := by
  rw [List.mem_filterMap] at hp
  obtain ⟨i, hi, hpi⟩ := hp
  by_cases hact : SlotActive data i
  · rw [if_pos hact] at hpi
    exact ⟨i, List.mem_range.1 hi, hact, (Option.some.inj hpi).symm⟩
  · rw [if_neg hact] at hpi
    cases hpi

/-- C4: `parseSaveData` never panics (no index or slice is out of bounds), whatever the
buffer, and a slot whose header does not fit in the buffer yields no profile. -/
theorem parseSaveData_safe (data : List UInt8) :
    ∃ ps, parseSaveData data = some ps ∧
      ∀ i, i < NumSlots → data.length < SaveHeaderStartIndex + (i + 1) * SaveHeaderLength →
        ∀ p ∈ ps, p.SlotIndex ≠ (i : Int) := by
  refine ⟨_, parseSaveData_eq data, ?_⟩
  intro i _ hshort p hp heq
  obtain ⟨j, _, hact, hpj⟩ := mem_filterMap_slot data NumSlots p hp
  have hji : j = i := by
    have : p.SlotIndex = (j : Int) := by rw [hpj]; rfl
    rw [this] at heq
    exact Int.ofNat.inj heq
  subst hji
  have := hact.2
  unfold headerOffsetOf at this
  rw [Nat.add_mul, Nat.one_mul, ← Nat.add_assoc] at hshort
  omega

/-- A buffer with the active flag of slot 0 set but cut before the end of its header:
`parseSaveData` returns normally and reports no profile for slot 0. -/
theorem parseSaveData_safe_witness :
    0 < NumSlots ∧ truncatedSave.length < SaveHeaderStartIndex + (0 + 1) * SaveHeaderLength ∧
    ∃ ps, parseSaveData truncatedSave = some ps ∧ ∀ p ∈ ps, p.SlotIndex ≠ ((0 : Nat) : Int) := by
  have h1 : 0 < NumSlots := by decide
  have h2 : truncatedSave.length < SaveHeaderStartIndex + (0 + 1) * SaveHeaderLength := by
    unfold truncatedSave
    rw [List.length_append, List.length_append, length_zeros, length_zeros,
      List.length_singleton]
    decide
  obtain ⟨ps, hps, hall⟩ := parseSaveData_safe truncatedSave
  exact ⟨h1, h2, ps, hps, hall 0 h1 h2⟩

/-! ### Slot indices outside `[0, NumSlots)` -/

theorem ReadAt_neg (f : List UInt8) (n : Nat) (off : Int) (h : off < 0) :
    ReadAt f n off = none := by
  unfold ReadAt
  rw [if_pos h]

theorem ReadAt_length (f : List UInt8) (n : Nat) (off : Int) (buf : List UInt8)
    (h : ReadAt f n off = some buf) : buf.length = n := by
  unfold ReadAt at h
  split at h
  · cases h
  · split at h
    · rename_i h1 h2
      have := Option.some.inj h
      rw [← this, List.length_take, List.length_drop]
      omega
    · cases h

theorem onRead_eq_true {r : Option (List UInt8)} {k : List UInt8 → Option (Profile × Bool)}
    {p : Profile} (h : onRead r k = some (p, true)) :
    ∃ buf, r = some buf ∧ k buf = some (p, true) := by
  cases r with
  | none =>
    rw [onRead_none] at h
    have := congrArg Prod.snd (Option.some.inj h)
    cases this
  | some buf => exact ⟨buf, rfl, h⟩

/-- The decoding of the header fields never panics on a buffer of `SaveHeaderLength`
bytes. -/
theorem header_fields (header : List UInt8) (hlen : header.length = SaveHeaderLength)
    (k : List UInt8 → Nat → Nat → Option (Profile × Bool)) :
    ((slice header 0 CharNameLength).bind fun nameBytes =>
      (decodeUTF16 nameBytes).bind fun name =>
      (slice header CharLevelOffset (CharLevelOffset + 2)).bind fun levelBytes =>
      (Uint16 levelBytes).bind fun level =>
      (slice header CharPlaytimeOffset (CharPlaytimeOffset + 4)).bind fun playBytes =>
      (Uint32 playBytes).bind fun playTime => k name level playTime)
      = k (decodeName (header.take CharNameLength)) (leValue16 header CharLevelOffset)
          (leValue32 header CharPlaytimeOffset) := by
  have hname : slice header 0 CharNameLength = some (header.take CharNameLength) := by
    rw [slice_of_le _ _ _ (Nat.zero_le _) (by rw [hlen]; decide), List.drop_zero, Nat.sub_zero]
  have hlevel := Uint16_slice header CharLevelOffset (by rw [hlen]; decide)
  have hplay := Uint32_slice header CharPlaytimeOffset (by rw [hlen]; decide)
  rw [hname, Option.some_bind, decodeUTF16_decodeName, Option.some_bind,
    bind_bind_some _ _ _ _ hlevel, bind_bind_some _ _ _ _ hplay]

/-- A profile returned with `found = true` carries the requested slot index. -/
theorem readSlotData_slotIndex (b : List UInt8) (slotIndex : Int) (p : Profile)
    (h : readSlotData b slotIndex = some (p, true)) : p.SlotIndex = slotIndex := by
  unfold readSlotData at h
  obtain ⟨activeBuf, _, h⟩ := onRead_eq_true h
  rw [Option.bind_eq_some] at h
  obtain ⟨a, _, h⟩ := h
  split at h
  · have := congrArg Prod.snd (Option.some.inj h)
    cases this
  · obtain ⟨header, _, h⟩ := onRead_eq_true h
    rw [Option.bind_eq_some] at h
    obtain ⟨nameBytes, _, h⟩ := h
    rw [Option.bind_eq_some] at h
    obtain ⟨name, _, h⟩ := h
    rw [Option.bind_eq_some] at h
    obtain ⟨levelBytes, _, h⟩ := h
    rw [Option.bind_eq_some] at h
    obtain ⟨level, _, h⟩ := h
    rw [Option.bind_eq_some] at h
    obtain ⟨playBytes, _, h⟩ := h
    rw [Option.bind_eq_some] at h
    obtain ⟨playTime, _, h⟩ := h
    obtain ⟨scanBuf, _, h⟩ := onRead_eq_true h
    rw [Option.bind_eq_some] at h
    obtain ⟨deaths, _, h⟩ := h
    have hp : (⟨slotIndex, name, level, playTime, deaths, true⟩ : Profile) = p :=
      congrArg Prod.fst (Option.some.inj h)
    rw [← hp]

/-- With a negative slot index one of the three positioned reads fails. -/
theorem readSlotData_negative (b : List UInt8) (slotIndex : Int) (hmin : -2 ^ 63 ≤ slotIndex)
    (hneg : slotIndex < 0) : readSlotData b slotIndex = some (Profile.zero, false) := by
  unfold readSlotData
  by_cases h0 : ((CharActiveStatusStartIndex : Nat) : Int) + slotIndex < 0
  · rw [wrapInt_of_range _ (by simp only [CharActiveStatusStartIndex, Nat.cast_ofNat] at *; omega)
      (by omega), ReadAt_neg _ _ _ h0, onRead_none]
  · have hlow : -((CharActiveStatusStartIndex : Nat) : Int) ≤ slotIndex := by omega
    have o3 : wrapInt ((SlotStartIndex : Nat) + wrapInt (slotIndex * (SlotLength : Nat))) < 0 := by
      rw [wrapInt_of_range (slotIndex * _), wrapInt_of_range]
      · simp only [SlotStartIndex, SlotLength, Nat.cast_ofNat]; omega
      · simp only [SlotStartIndex, SlotLength, CharActiveStatusStartIndex, Nat.cast_ofNat] at *
        omega
      · simp only [SlotStartIndex, SlotLength, CharActiveStatusStartIndex, Nat.cast_ofNat] at *
        omega
      · simp only [SlotLength, CharActiveStatusStartIndex, Nat.cast_ofNat] at *
        omega
      · simp only [SlotLength, CharActiveStatusStartIndex, Nat.cast_ofNat] at *
        omega
    rw [ReadAt_neg _ SlotScanSize _ o3]
    cases hr1 : ReadAt b 1 (wrapInt ((CharActiveStatusStartIndex : Nat) + slotIndex)) with
    | none => rw [onRead_none]
    | some activeBuf =>
      have hl1 := ReadAt_length _ _ _ _ hr1
      rw [onRead_some, index_of_lt activeBuf 0 (by omega), Option.some_bind]
      split
      · rfl
      · cases hr2 : ReadAt b SaveHeaderLength
            (wrapInt ((SaveHeaderStartIndex : Nat) + wrapInt (slotIndex * (SaveHeaderLength : Nat)))) with
        | none => rw [onRead_none]
        | some header =>
          have hl2 := ReadAt_length _ _ _ _ hr2
          rw [onRead_some, header_fields header hl2, onRead_none]

/-- C10 (counterexample): slot index 10 is outside `[0, NumSlots)`, yet on `overrunSave`
`readSlotData` returns `found = true` with a profile whose `SlotIndex` is 10. -/
theorem readSlotData_slot10_found :
    ¬ ((10 : Int) < (NumSlots : Nat)) ∧
    ∃ p, readSlotData overrunSave 10 = some (p, true) ∧ p.SlotIndex = 10 := by
  have hlen : overrunSave.length = slotOffsetOf 10 + SlotScanSize := by
    unfold overrunSave
    rw [List.length_append, List.length_append, length_zeros, length_zeros,
      List.length_singleton]
    decide
  have hflag : overrunSave[CharActiveStatusStartIndex + 10]? = some 1 := by
    unfold overrunSave
    rw [List.append_assoc, List.getElem?_append_right (by rw [length_zeros]), length_zeros,
      Nat.sub_self]
    simp only [List.singleton_append, List.getElem?_cons_zero]
  have h := readSlotData_natCast overrunSave 10 (by decide)
  rw [if_pos ⟨hflag, by rw [hlen]; decide, by rw [hlen]⟩] at h
  exact ⟨by decide, _, h, rfl⟩

/-- C10 (amended): a profile returned with `found = true` carries the requested slot
index and that index is not negative; for every file content and every negative slot
index (of the 64-bit `int` range) `readSlotData` returns `found = false`. -/
theorem readSlotData_found_nonneg (b : List UInt8) (slotIndex : Int)
    (hmin : -2 ^ 63 ≤ slotIndex) :
    (slotIndex < 0 → readSlotData b slotIndex = some (Profile.zero, false)) ∧
    (∀ p, readSlotData b slotIndex = some (p, true) → p.SlotIndex = slotIndex ∧ 0 ≤ slotIndex) := by
  refine ⟨readSlotData_negative b slotIndex hmin, ?_⟩
  intro p hp
  refine ⟨readSlotData_slotIndex b slotIndex p hp, ?_⟩
  by_contra hneg
  have := readSlotData_negative b slotIndex hmin (by omega)
  rw [this] at hp
  have := congrArg Prod.snd (Option.some.inj hp)
  cases this

/-- Slot index -1 on `negOneSave`: the flag byte read at offset
`CharActiveStatusStartIndex - 1` returns 1, the header read succeeds, and the read of
the scan window, at a negative offset, fails: `found = false`. -/
theorem readSlotData_found_nonneg_witness :
    -2 ^ 63 ≤ (-1 : Int) ∧ (-1 : Int) < 0 ∧
    ReadAt negOneSave 1 (wrapInt ((CharActiveStatusStartIndex : Nat) + (-1 : Int))) = some [1] ∧
    (ReadAt negOneSave SaveHeaderLength
      (wrapInt ((SaveHeaderStartIndex : Nat)
        + wrapInt ((-1 : Int) * (SaveHeaderLength : Nat))))).isSome = true ∧
    wrapInt ((SlotStartIndex : Nat) + wrapInt ((-1 : Int) * (SlotLength : Nat))) < 0 ∧
    readSlotData negOneSave (-1) = some (Profile.zero, false) := by
  have hlen : negOneSave.length = SaveHeaderStartIndex := by
    unfold negOneSave
    rw [List.length_append, List.length_append, length_zeros, length_zeros,
      List.length_singleton]
    decide
  have o1 : wrapInt ((CharActiveStatusStartIndex : Nat) + (-1 : Int))
      = ((CharActiveStatusStartIndex - 1 : Nat) : Int) := by decide
  have o2 : wrapInt ((SaveHeaderStartIndex : Nat) + wrapInt ((-1 : Int) * (SaveHeaderLength : Nat)))
      = ((SaveHeaderStartIndex - SaveHeaderLength : Nat) : Int) := by decide
  have hflag : ReadAt negOneSave 1 (wrapInt ((CharActiveStatusStartIndex : Nat) + (-1 : Int)))
      = some [1] := by
    rw [o1, ReadAt_natCast, if_pos (by rw [hlen]; decide)]
    unfold negOneSave
    rw [List.drop_left' (length_zeros _)]
    rfl
  have hhdr : (ReadAt negOneSave SaveHeaderLength
      (wrapInt ((SaveHeaderStartIndex : Nat)
        + wrapInt ((-1 : Int) * (SaveHeaderLength : Nat))))).isSome = true := by
    rw [o2, ReadAt_natCast, if_pos (by rw [hlen]; decide)]
    rfl
  exact ⟨by decide, by decide, hflag, hhdr, by decide,
    (readSlotData_found_nonneg negOneSave (-1) (by decide)).1 (by decide)⟩

/-! ### The two decoders scan different windows -/

theorem getD_zeros_append (n k : Nat) (t : List UInt8) :
    (zeros n ++ t).getD k 0 = if k < n then 0 else t.getD (k - n) 0 := by
  rw [List.getD_eq_getElem?_getD, List.getD_eq_getElem?_getD]
  split
  · next h =>
    rw [List.getElem?_append_left (by rw [length_zeros]; exact h), getElem?_zeros _ _ h]
    rfl
  · next h =>
    rw [List.getElem?_append_right (by rw [length_zeros]; omega), length_zeros]

theorem length_deepRegion : deepRegion.length = SlotLength := by
  unfold deepRegion
  rw [List.length_append, List.length_append, length_zeros, length_zeros]
  decide

theorem sentinelMatch_deepRegion : SentinelMatch deepRegion SlotScanSize := by
  refine ⟨by rw [length_deepRegion]; decide, ?_⟩
  unfold deepRegion
  have e : SlotScanSize + 4 = (zeros SlotScanSize).length + 4 := by rw [length_zeros]
  rw [e, List.drop_append]
  rfl

theorem no_sentinelMatch_deepRegion (p : Nat) (hp : p < SlotScanSize) :
    ¬ SentinelMatch deepRegion p := by
  intro hm
  have h4 := ((sentinelMatch_iff deepRegion p hm.1).1 hm).1
  unfold deepRegion at h4
  rw [getD_zeros_append] at h4
  split at h4
  · cases h4
  · next hge =>
    have hk : p + 4 - SlotScanSize < 4 := by omega
    generalize p + 4 - SlotScanSize = k at h4 hk
    interval_cases k <;> cases h4

theorem leValue32_zeros_append (n : Nat) (t : List UInt8) :
    leValue32 (zeros n ++ t) n = leValue32 t 0 := by
  unfold leValue32
  rw [getD_zeros_append, getD_zeros_append, getD_zeros_append, getD_zeros_append,
    if_neg (by omega), if_neg (by omega), if_neg (by omega), if_neg (by omega),
    Nat.sub_self, Nat.add_sub_cancel_left, Nat.add_sub_cancel_left, Nat.add_sub_cancel_left]

theorem leValue32_deepRegion : leValue32 deepRegion SlotScanSize = 5 := by
  rw [deepRegion, leValue32_zeros_append]
  decide

theorem countDeaths_deepRegion : countDeaths deepRegion = 5 := by
  unfold countDeaths
  rw [findDeaths_first deepRegion SlotScanSize sentinelMatch_deepRegion
    no_sentinelMatch_deepRegion, leValue32_deepRegion]
  rfl

theorem countDeaths_zeros (n : Nat) : countDeaths (zeros n) = 0 := by
  unfold countDeaths
  rw [findDeaths_of_no_FF _ (fun x hx => by rw [mem_zeros hx]; decide)]
  rfl

theorem filterMap_eq_nil_of_none {α β : Type} (f : α → Option β) (l : List α)
    (h : ∀ a ∈ l, f a = none) : l.filterMap f = [] := by
  induction l with
  | nil => rfl
  | cons a l ih =>
    rw [List.filterMap_cons, h a (List.mem_cons_self _ _)]
    exact ih (fun x hx => h x (List.mem_cons_of_mem _ hx))

/-- What `parseSaveData` returns on a save image whose only active slot is slot 0. -/
theorem parseSaveData_mkSave (region header : List UInt8)
    (hlong : SlotLength ≤ region.length)
    (hreg : slotOffsetOf 0 + region.length ≤ CharActiveStatusStartIndex + 0)
    (hhdr : header.length = SaveHeaderLength) :
    parseSaveData (mkSave 0 region header) = some
      [⟨0, decodeName (header.take CharNameLength), leValue16 header CharLevelOffset,
        leValue32 header CharPlaytimeOffset, countDeaths (region.take SlotLength), true⟩] := by
  have hslot : 0 < NumSlots := by decide
  have hlen := mkSave_length 0 region header hslot hreg
  have hH : headerOffsetOf 0 + SaveHeaderLength ≤ (mkSave 0 region header).length := by
    rw [hlen, hhdr]
  have hact : SlotActive (mkSave 0 region header) 0 := ⟨mkSave_flag 0 region header hreg, hH⟩
  have hwin : ((mkSave 0 region header).drop (headerOffsetOf 0)).take SaveHeaderLength
      = header := by
    rw [mkSave_drop_header 0 region header hslot hreg, List.take_of_length_le (by rw [hhdr])]
  have hrest : ∀ i ∈ (List.range 9).map Nat.succ,
      (if SlotActive (mkSave 0 region header) i then
        some (profileWith (mkSave 0 region header) i
          (countDeaths (slotRegion (mkSave 0 region header) i)))
      else none) = none := by
    intro i hi
    rw [List.mem_map] at hi
    obtain ⟨j, hj, rfl⟩ := hi
    have hj9 := List.mem_range.1 hj
    have hz := mkSave_later_flag 0 (j + 1) region header
      (by simp only [NumSlots]; omega) (by omega) hreg
    rw [if_neg]
    intro hact
    have h1 := hact.1
    rw [hz] at h1
    cases h1
  rw [parseSaveData_eq, show NumSlots = 9 + 1 from rfl, List.range_succ_eq_map,
    List.filterMap_cons, if_pos hact]
  simp only []
  rw [filterMap_eq_nil_of_none _ _ hrest]
  unfold profileWith nameBytesOf slotRegion
  rw [mkSave_drop_header 0 region header hslot hreg, mkSave_take_region _ _ _ _ hlong,
    ← leValue16_window _ _ SaveHeaderLength _ (by decide) hH,
    ← leValue32_window _ _ SaveHeaderLength _ (by decide) hH, hwin]
  rfl

/-- C1: the two decoder entry points do not agree on `deepSave`, whose only sentinel
lies right behind the first `SlotScanSize` bytes of the slot region of slot 0: both find
slot 0 with the same name, level and playtime, but `readSlotData` reports 0 deaths and
`parseSaveData`, which scans the slot region up to `SlotLength` bytes, reports 5. -/
theorem decoders_disagree_on_deaths :
    readSlotData deepSave 0 = some (⟨0, [], 0, 0, 0, true⟩, true) ∧
    parseSaveData deepSave = some [⟨0, [], 0, 0, 5, true⟩] := by
  have hreg : slotOffsetOf 0 + deepRegion.length ≤ CharActiveStatusStartIndex + 0 := by
    rw [length_deepRegion]; decide
  have hn : decodeName ((zeros SaveHeaderLength).take CharNameLength) = [] := by decide
  have hl : leValue16 (zeros SaveHeaderLength) CharLevelOffset = 0 := by decide
  have hp : leValue32 (zeros SaveHeaderLength) CharPlaytimeOffset = 0 := by decide
  have hscan : deepRegion.take SlotScanSize = zeros SlotScanSize := by
    unfold deepRegion
    exact List.take_left' (length_zeros _)
  have hfull : deepRegion.take SlotLength = deepRegion :=
    List.take_of_length_le (by rw [length_deepRegion])
  constructor
  · have h := readSlotData_mkSave 0 deepRegion (zeros SaveHeaderLength) (by decide)
      (by rw [length_deepRegion]; decide) hreg (length_zeros _)
    rw [hn, hl, hp, hscan, countDeaths_zeros] at h
    exact h
  · have h := parseSaveData_mkSave deepRegion (zeros SaveHeaderLength)
      (by rw [length_deepRegion]) hreg (length_zeros _)
    rw [hn, hl, hp, hfull, countDeaths_deepRegion] at h
    exact h

theorem scanWindow_eq_take (b : List UInt8) (i : Nat) :
    scanWindow b i = (slotRegion b i).take SlotScanSize := by
  unfold scanWindow slotRegion
  rw [List.take_take]
  rfl

/-- Extent of the disagreement between the two decoders: for a slot index `i` below
`NumSlots`, `parseSaveData` returns normally; every profile it lists for slot `i` is
returned by `readSlotData` with `found = true` and the same `SlotIndex`, `Name`, `Level`,
`PlayTime` and `Active`; the death counts are `findDeaths` of the first `SlotScanSize`
bytes of the slot region for `readSlotData` and of up to `SlotLength` bytes for
`parseSaveData`, and they are equal when a sentinel match of the slot region ends within
its first `SlotScanSize` bytes or the slot region has no match; when `parseSaveData`
lists no profile for slot `i`, `readSlotData` returns `found = false`. -/
theorem decoders_agree_up_to_deaths (b : List UInt8) (i : Nat) (hi : i < NumSlots) :
    ∃ ps, parseSaveData b = some ps ∧
      (∀ q ∈ ps, q.SlotIndex = (i : Int) →
        (∃ d, findDeaths ((b.drop (slotOffsetOf i)).take SlotScanSize) = some d ∧
          readSlotData b (i : Int) = some ({ q with Deaths := d }, true)) ∧
        findDeaths ((b.drop (slotOffsetOf i)).take SlotLength) = some q.Deaths ∧
        (((∃ pos, SentinelMatch ((b.drop (slotOffsetOf i)).take SlotLength) pos ∧
              pos + 12 ≤ SlotScanSize) ∨
            ∀ pos, ¬ SentinelMatch ((b.drop (slotOffsetOf i)).take SlotLength) pos) →
          readSlotData b (i : Int) = some (q, true))) ∧
      ((∀ q ∈ ps, q.SlotIndex ≠ (i : Int)) →
        readSlotData b (i : Int) = some (Profile.zero, false)) := by
  have hi32 : i < 2 ^ 32 := by simp only [NumSlots] at hi; omega
  refine ⟨_, parseSaveData_eq b, ?_, ?_⟩
  · intro q hq hqi
    obtain ⟨j, _, hact, hqj⟩ := mem_filterMap_slot b NumSlots q hq
    have hji : j = i := by
      have : q.SlotIndex = (j : Int) := by rw [hqj]; rfl
      rw [this] at hqi
      exact Int.ofNat.inj hqi
    subst hji
    have hS : slotOffsetOf j + SlotScanSize ≤ b.length := by
      have := hact.2
      simp only [slotOffsetOf, headerOffsetOf, SlotStartIndex, SlotLength, SlotScanSize,
        SaveHeaderStartIndex, SaveHeaderLength, NumSlots] at *
      omega
    have hread := readSlotData_natCast b j hi32
    rw [if_pos ⟨hact.1, hact.2, hS⟩] at hread
    refine ⟨⟨countDeaths (scanWindow b j), findDeaths_countDeaths _, ?_⟩, ?_, ?_⟩
    · rw [hread, hqj]
      rfl
    · rw [hqj]
      exact findDeaths_countDeaths _
    · intro hwin
      have hd : countDeaths (scanWindow b j) = countDeaths (slotRegion b j) := by
        have hw : (∃ pos, SentinelMatch (slotRegion b j) pos ∧ pos + 12 ≤ SlotScanSize) ∨
            ∀ pos, ¬ SentinelMatch (slotRegion b j) pos := hwin
        unfold countDeaths
        rw [scanWindow_eq_take, findDeaths_take _ _ hw]
      rw [hread, hd, hqj]
  · intro hnone
    have hnot : ¬ SlotActive b i := by
      intro hact
      refine hnone (profileWith b i (countDeaths (slotRegion b i))) ?_ rfl
      rw [List.mem_filterMap]
      exact ⟨i, List.mem_range.2 hi, by rw [if_pos hact]⟩
    rw [readSlotData_natCast b i hi32, if_neg (fun h => hnot ⟨h.1, h.2.1⟩)]

/-- `readSlotData` never panics, whatever the file and the slot index. -/
theorem readSlotData_total (b : List UInt8) (slotIndex : Int) :
    ∃ r, readSlotData b slotIndex = some r := by
  unfold readSlotData
  cases hr1 : ReadAt b 1 (wrapInt ((CharActiveStatusStartIndex : Nat) + slotIndex)) with
  | none => exact ⟨_, onRead_none _⟩
  | some activeBuf =>
    have hl1 := ReadAt_length _ _ _ _ hr1
    rw [onRead_some, index_of_lt activeBuf 0 (by omega), Option.some_bind]
    split
    · exact ⟨_, rfl⟩
    · cases hr2 : ReadAt b SaveHeaderLength
          (wrapInt ((SaveHeaderStartIndex : Nat) + wrapInt (slotIndex * (SaveHeaderLength : Nat)))) with
      | none => exact ⟨_, onRead_none _⟩
      | some header =>
        have hl2 := ReadAt_length _ _ _ _ hr2
        rw [onRead_some, header_fields header hl2]
        cases hr3 : ReadAt b SlotScanSize
            (wrapInt ((SlotStartIndex : Nat) + wrapInt (slotIndex * (SlotLength : Nat)))) with
        | none => exact ⟨_, onRead_none _⟩
        | some scanBuf =>
          rw [onRead_some, findDeaths_countDeaths, Option.some_bind]
          exact ⟨_, rfl⟩

/-! ### The poll loop -/

theorem decoded_append_of_none (pre post : List Effect) (h : decoded pre = none) :
    decoded (pre ++ post) = decoded post := by
  induction pre with
  | nil => rfl
  | cons e es ih =>
    cases e with
    | readSlot slot r =>
      obtain ⟨p, ok⟩ := r
      cases ok with
      | true => simp [decoded] at h
      | false =>
        simp only [decoded] at h
        simp only [List.cons_append, decoded]
        exact ih h
    | _ =>
      simp only [decoded] at h
      simp only [List.cons_append, decoded]
      exact ih h

theorem decoded_append_of_some (pre post : List Effect) (d : Int) (h : decoded pre = some d) :
    decoded (pre ++ post) = some d := by
  induction pre with
  | nil => simp [decoded] at h
  | cons e es ih =>
    cases e with
    | readSlot slot r =>
      obtain ⟨p, ok⟩ := r
      cases ok with
      | true =>
        simp only [decoded] at h
        simp only [List.cons_append, decoded]
        exact h
      | false =>
        simp only [decoded] at h
        simp only [List.cons_append, decoded]
        exact ih h
    | _ =>
      simp only [decoded] at h
      simp only [List.cons_append, decoded]
      exact ih h

/-- The actions of the locate step are neither a stat, nor a file read, nor a
publication. -/
theorem locateStep_inert (st : LoopState) (env : TickEnv) :
    decoded (locateStep st env).2 = none ∧
    ∀ e ∈ (locateStep st env).2,
      e.isPublish = false ∧ e.isFileRead = false ∧ e.isStat = false := by
  unfold locateStep
  split
  · cases env.locate with
    | none => simp [decoded, Effect.isPublish, Effect.isFileRead, Effect.isStat]
    | some p => simp [decoded, Effect.isPublish, Effect.isFileRead, Effect.isStat]
  · simp [decoded]

/-- The read step opens the file; it never publishes; its actions hold a successful
read exactly when it hands a profile with `ok = true` to the rest of the tick. -/
theorem readStep_outcome (config : Config) (path : String) (env : TickEnv)
    (r : Option (Profile × Bool)) (e1 : List Effect)
    (h : readStep config path env = some (r, e1)) :
    (∀ e ∈ e1, e.isPublish = false ∧ e.isStat = false) ∧ (∃ e ∈ e1, e.isFileRead = true) ∧
    ((∃ p, r = some (p, true) ∧ decoded e1 = some p.Deaths) ∨
      ((r = none ∨ ∃ p, r = some (p, false)) ∧ decoded e1 = none)) := by
  unfold readStep at h
  cases ho1 : env.open1 with
  | none =>
    rw [ho1] at h
    simp only [Option.some.injEq, Prod.mk.injEq] at h
    obtain ⟨rfl, rfl⟩ := h
    simp [decoded, Effect.isPublish, Effect.isFileRead, Effect.isStat]
  | some f1 =>
    rw [ho1] at h
    simp only at h
    rw [Option.bind_eq_some] at h
    obtain ⟨⟨p1, ok1⟩, _, h⟩ := h
    cases ok1 with
    | true =>
      simp only [Bool.not_true, Bool.false_eq_true, if_false, Option.some.injEq,
        Prod.mk.injEq] at h
      obtain ⟨rfl, rfl⟩ := h
      simp [decoded, Effect.isPublish, Effect.isFileRead, Effect.isStat]
    | false =>
      simp only [Bool.not_false, if_true] at h
      cases ho2 : env.open2 with
      | none =>
        rw [ho2] at h
        simp only [Option.some.injEq, Prod.mk.injEq] at h
        obtain ⟨rfl, rfl⟩ := h
        simp [decoded, Effect.isPublish, Effect.isFileRead, Effect.isStat]
      | some f2 =>
        rw [ho2] at h
        simp only at h
        rw [Option.bind_eq_some] at h
        obtain ⟨⟨p2, ok2⟩, _, h⟩ := h
        simp only [Option.some.injEq, Prod.mk.injEq] at h
        obtain ⟨rfl, rfl⟩ := h
        cases ok2 <;> simp [decoded, Effect.isPublish, Effect.isFileRead, Effect.isStat]

theorem commitStep_lastDeaths (config : Config) (dfp : String) (st : LoopState)
    (path : String) (modTime : Int) (p : Profile) :
    (commitStep config dfp st path modTime p).1.lastDeaths = p.Deaths ∧
    (commitStep config dfp st path modTime p).1.lastModTime = modTime := by
  unfold commitStep
  split
  · next h => exact ⟨(beq_iff_eq.1 h).symm, rfl⟩
  · split <;> exact ⟨rfl, rfl⟩

theorem commitStep_silent (config : Config) (dfp : String) (st : LoopState)
    (path : String) (modTime : Int) (p : Profile)
    (h : p.Deaths = st.lastDeaths ∨ p.Deaths = 0) :
    (commitStep config dfp st path modTime p).2 = [] := by
  unfold commitStep
  split
  · rfl
  · split
    · rfl
    · next h1 h2 =>
      rcases h with h | h
      · exact absurd (beq_iff_eq.2 h) h1
      · exact absurd (beq_iff_eq.2 h) h2

theorem commitStep_no_read (config : Config) (dfp : String) (st : LoopState)
    (path : String) (modTime : Int) (p : Profile) :
    ∀ e ∈ (commitStep config dfp st path modTime p).2,
      e.isFileRead = false ∧ e.isStat = false := by
  unfold commitStep
  split
  · simp
  · split
    · simp
    · cases config.EnableWebUI <;> cases config.EnableTextFile <;>
        simp [Effect.isFileRead, Effect.isStat]

theorem mem_stat_tail {P : Effect → Prop} (e0 : List Effect) (path : String)
    (h0 : ∀ e ∈ e0, P e) (hs : P (Effect.stat path)) :
    ∀ e ∈ e0 ++ [Effect.stat path], P e := by
  intro e he
  rcases List.mem_append.1 he with h | h
  · exact h0 e h
  · rw [List.mem_singleton.1 h]; exact hs

/-- The four ways a tick can end: before a timestamp is observed; at the stat gate;
after a failed open or read; after a successful read. -/
theorem tick_outcome (config : Config) (dfp : String) (st : LoopState) (env : TickEnv)
    (st' : LoopState) (tr : List Effect) (h : tick config dfp st env = some (st', tr)) :
    ((env.stat = none ∨ ∀ e ∈ tr, e.isStat = false) ∧ decoded tr = none ∧
        st'.lastDeaths = st.lastDeaths ∧
        ∀ e ∈ tr, e.isPublish = false ∧ e.isFileRead = false) ∨
    (∃ t, env.stat = some t ∧ ¬ t > st.lastModTime ∧ st'.lastModTime = st.lastModTime ∧
        st'.lastDeaths = st.lastDeaths ∧ decoded tr = none ∧
        ∀ e ∈ tr, e.isPublish = false ∧ e.isFileRead = false) ∨
    (∃ t, env.stat = some t ∧ t > st.lastModTime ∧ decoded tr = none ∧
        st'.lastDeaths = st.lastDeaths ∧ (∀ e ∈ tr, e.isPublish = false) ∧
        ∃ e ∈ tr, e.isFileRead = true) ∨
    (∃ t p path pre, env.stat = some t ∧ t > st.lastModTime ∧
        tr = pre ++ (commitStep config dfp st path t p).2 ∧
        st' = (commitStep config dfp st path t p).1 ∧
        decoded pre = some p.Deaths ∧ ∀ e ∈ pre, e.isPublish = false) := by
  have hin := locateStep_inert st env
  unfold tick at h
  cases hloc : locateStep st env with
  | mk lo e0 =>
    rw [hloc] at h hin
    simp only at hin
    cases lo with
    | none =>
      simp only [Option.some.injEq, Prod.mk.injEq] at h
      obtain ⟨rfl, rfl⟩ := h
      exact Or.inl ⟨Or.inr (fun e he => (hin.2 e he).2.2), hin.1, rfl,
        fun e he => ⟨(hin.2 e he).1, (hin.2 e he).2.1⟩⟩
    | some savePath =>
      simp only at h
      have hdec : decoded (e0 ++ [Effect.stat savePath]) = none := by
        rw [decoded_append_of_none _ _ hin.1]; rfl
      have hpre : ∀ e ∈ e0 ++ [Effect.stat savePath],
          e.isPublish = false ∧ e.isFileRead = false :=
        mem_stat_tail e0 savePath (fun e he => ⟨(hin.2 e he).1, (hin.2 e he).2.1⟩) ⟨rfl, rfl⟩
      cases hstat : env.stat with
      | none =>
        rw [hstat] at h
        simp only [Option.some.injEq, Prod.mk.injEq] at h
        obtain ⟨rfl, rfl⟩ := h
        exact Or.inl ⟨Or.inl rfl, hdec, rfl, hpre⟩
      | some t =>
        rw [hstat] at h
        simp only at h
        by_cases hg : t > st.lastModTime
        · rw [if_neg (by simp [hg])] at h
          rw [Option.bind_eq_some] at h
          obtain ⟨⟨r, e1⟩, hrs, h⟩ := h
          obtain ⟨hnp, hfr, hr⟩ := readStep_outcome config savePath env r e1 hrs
          have hnopub : ∀ e ∈ e0 ++ [Effect.stat savePath] ++ e1, e.isPublish = false := by
            intro e he
            rcases List.mem_append.1 he with h1 | h1
            · exact (hpre e h1).1
            · exact (hnp e h1).1
          have hread : ∃ e ∈ e0 ++ [Effect.stat savePath] ++ e1, e.isFileRead = true := by
            obtain ⟨e, he, hf⟩ := hfr
            exact ⟨e, List.mem_append_right _ he, hf⟩
          rcases hr with ⟨p, rfl, hd⟩ | ⟨hfail, hd⟩
          · simp only [Bool.not_true, Bool.false_eq_true, if_false, Option.some.injEq,
              Prod.mk.injEq] at h
            obtain ⟨rfl, rfl⟩ := h
            refine Or.inr (Or.inr (Or.inr ⟨t, p, savePath, e0 ++ [Effect.stat savePath] ++ e1,
              rfl, hg, rfl, rfl, ?_, hnopub⟩))
            rw [decoded_append_of_none _ _ hdec]
            exact hd
          · have hd2 : decoded (e0 ++ [Effect.stat savePath] ++ e1) = none := by
              rw [decoded_append_of_none _ _ hdec]; exact hd
            rcases hfail with rfl | ⟨p, rfl⟩
            · simp only [Option.some.injEq, Prod.mk.injEq] at h
              obtain ⟨rfl, rfl⟩ := h
              exact Or.inr (Or.inr (Or.inl ⟨t, rfl, hg, hd2, rfl, hnopub, hread⟩))
            · simp only [Bool.not_false, if_true, Option.some.injEq, Prod.mk.injEq] at h
              obtain ⟨rfl, rfl⟩ := h
              exact Or.inr (Or.inr (Or.inl ⟨t, rfl, hg, hd2, rfl, hnopub, hread⟩))
        · rw [if_pos (by simp [hg])] at h
          simp only [Option.some.injEq, Prod.mk.injEq] at h
          obtain ⟨rfl, rfl⟩ := h
          exact Or.inr (Or.inl ⟨t, rfl, hg, rfl, rfl, hdec, hpre⟩)

/-- A tick never panics. -/
theorem tick_total (config : Config) (dfp : String) (st : LoopState) (env : TickEnv) :
    ∃ r, tick config dfp st env = some r := by
  unfold tick
  cases hloc : locateStep st env with
  | mk lo e0 =>
    cases lo with
    | none => exact ⟨_, rfl⟩
    | some savePath =>
      simp only
      cases env.stat with
      | none => exact ⟨_, rfl⟩
      | some t =>
        simp only
        split
        · exact ⟨_, rfl⟩
        · have hr : ∃ r, readStep config savePath env = some r := by
            unfold readStep
            cases env.open1 with
            | none => exact ⟨_, rfl⟩
            | some f1 =>
              obtain ⟨r1, hr1⟩ := readSlotData_total f1 config.CharacterSlot
              simp only [hr1, Option.some_bind]
              split
              · cases env.open2 with
                | none => exact ⟨_, rfl⟩
                | some f2 =>
                  obtain ⟨r2, hr2⟩ := readSlotData_total f2 config.CharacterSlot
                  simp only [hr2, Option.some_bind]
                  exact ⟨_, rfl⟩
              · exact ⟨_, rfl⟩
          obtain ⟨⟨r, e1⟩, hr⟩ := hr
          rw [hr, Option.some_bind]
          cases r with
          | none => exact ⟨_, rfl⟩
          | some pr =>
            obtain ⟨p, ok⟩ := pr
            simp only
            split <;> exact ⟨_, rfl⟩

theorem tick_quiet (config : Config) (dfp : String) (st : LoopState) (env : TickEnv)
    (st' : LoopState) (tr : List Effect) (h : tick config dfp st env = some (st', tr))
    (d : Int) (hd : decoded tr = some d) (hq : d = st.lastDeaths ∨ d = 0) :
    (∀ e ∈ tr, e.isPublish = false) ∧ st'.lastDeaths = d := by
  rcases tick_outcome config dfp st env st' tr h with
    ⟨_, hn, _, _⟩ | ⟨t, _, _, _, _, hn, _⟩ | ⟨t, _, _, hn, _, _, _⟩ |
    ⟨t, p, path, pre, _, _, rfl, rfl, hpre, hnp⟩
  · rw [hn] at hd; cases hd
  · rw [hn] at hd; cases hd
  · rw [hn] at hd; cases hd
  · rw [decoded_append_of_some _ _ _ hpre] at hd
    have hpd : p.Deaths = d := Option.some.inj hd
    have hs := commitStep_silent config dfp st path t p (by rw [hpd]; exact hq)
    rw [hs, List.append_nil]
    exact ⟨hnp, by rw [(commitStep_lastDeaths config dfp st path t p).1, hpd]⟩

theorem tick_lastDeaths (config : Config) (dfp : String) (st : LoopState) (env : TickEnv)
    (st' : LoopState) (tr : List Effect) (h : tick config dfp st env = some (st', tr)) :
    st'.lastDeaths = (decoded tr).getD st.lastDeaths := by
  rcases tick_outcome config dfp st env st' tr h with
    ⟨_, hn, hl, _⟩ | ⟨t, _, _, _, hl, hn, _⟩ | ⟨t, _, _, hn, hl, _, _⟩ |
    ⟨t, p, path, pre, _, _, rfl, rfl, hpre, hnp⟩
  · rw [hn, hl]; rfl
  · rw [hn, hl]; rfl
  · rw [hn, hl]; rfl
  · rw [decoded_append_of_some _ _ _ hpre, (commitStep_lastDeaths config dfp st path t p).1]
    rfl

theorem runTicks_cons (config : Config) (dfp : String) (st : LoopState) (env : TickEnv)
    (envs : List TickEnv) (st2 : LoopState) (traces : List (List Effect))
    (h : runTicks config dfp st (env :: envs) = some (st2, traces)) :
    ∃ st1 tr trs, tick config dfp st env = some (st1, tr) ∧
      runTicks config dfp st1 envs = some (st2, trs) ∧ traces = tr :: trs := by
  rw [runTicks, Option.bind_eq_some] at h
  obtain ⟨⟨st1, tr⟩, htick, h⟩ := h
  rw [Option.map_eq_some'] at h
  obtain ⟨⟨st2', trs⟩, hrun, h⟩ := h
  simp only [Prod.mk.injEq] at h
  obtain ⟨rfl, rfl⟩ := h
  exact ⟨st1, tr, trs, htick, hrun, rfl⟩

/-- The loop never panics and performs one list of actions per tick. -/
theorem runTicks_total (config : Config) (dfp : String) (envs : List TickEnv) :
    ∀ st, ∃ st' traces, runTicks config dfp st envs = some (st', traces) ∧
      traces.length = envs.length := by
  induction envs with
  | nil => intro st; exact ⟨st, [], rfl, rfl⟩
  | cons env envs ih =>
    intro st
    obtain ⟨⟨st1, tr⟩, htick⟩ := tick_total config dfp st env
    obtain ⟨st2, trs, hrun, hlen⟩ := ih st1
    refine ⟨st2, tr :: trs, ?_, by rw [List.length_cons, List.length_cons, hlen]⟩
    rw [runTicks, htick, Option.some_bind, hrun]
    rfl

theorem runTicks_zero (config : Config) (dfp : String) (envs : List TickEnv) :
    ∀ st st' traces, runTicks config dfp st envs = some (st', traces) →
      ∀ tr ∈ traces, decoded tr = some 0 → ∀ e ∈ tr, e.isPublish = false := by
  induction envs with
  | nil =>
    intro st st' traces h tr htr
    rw [runTicks] at h
    have := (Prod.mk.inj (Option.some.inj h)).2
    rw [← this] at htr
    cases htr
  | cons env envs ih =>
    intro st st' traces h tr htr hd
    obtain ⟨st1, tr1, trs, htick, hrun, rfl⟩ := runTicks_cons config dfp st env envs st' traces h
    rcases List.mem_cons.1 htr with rfl | hmem
    · exact (tick_quiet config dfp st env st1 tr htick 0 hd (Or.inr rfl)).1
    · exact ih st1 st' trs hrun tr hmem hd

theorem runTicks_lastDeaths (config : Config) (dfp : String) (envs : List TickEnv) :
    ∀ st st' traces, runTicks config dfp st envs = some (st', traces) →
      st'.lastDeaths = (lastDecoded traces).getD st.lastDeaths := by
  induction envs with
  | nil =>
    intro st st' traces h
    rw [runTicks] at h
    obtain ⟨rfl, rfl⟩ := Prod.mk.inj (Option.some.inj h)
    rfl
  | cons env envs ih =>
    intro st st' traces h
    obtain ⟨st1, tr1, trs, htick, hrun, rfl⟩ := runTicks_cons config dfp st env envs st' traces h
    rw [ih st1 st' trs hrun, tick_lastDeaths config dfp st env st1 tr1 htick]
    have e : lastDecoded (tr1 :: trs)
        = (match lastDecoded trs with
          | some d => some d
          | none => decoded tr1) := rfl
    rw [e]
    cases lastDecoded trs with
    | none => rfl
    | some d => rfl

/-- C7: from the initial state, whatever the sequence of ticks, the loop runs without
panic and a tick whose successful read decodes a death count of 0 performs neither
`counter.Update` nor the write of the text file. -/
theorem zero_never_published (config : Config) (deathFilePath : String)
    (envs : List TickEnv) :
    ∃ st traces, runTicks config deathFilePath initState envs = some (st, traces) ∧
      traces.length = envs.length ∧
      ∀ tr ∈ traces, decoded tr = some 0 → ∀ e ∈ tr, e.isPublish = false := by
  obtain ⟨st, traces, hrun, hlen⟩ := runTicks_total config deathFilePath envs initState
  exact ⟨st, traces, hrun, hlen,
    runTicks_zero config deathFilePath envs initState st traces hrun⟩

/-- C6 (amended): `lastDeaths` is the death count of the most recent successful read.
After any run from the initial state, a tick whose successful read decodes the death
count of the most recent earlier successful read publishes nothing, and after any tick
with a successful read `lastDeaths` is the death count just decoded, whether it was
published or not. -/
theorem dedup_last_observed (config : Config) (deathFilePath : String)
    (envs : List TickEnv) (env : TickEnv) (st st' : LoopState)
    (traces : List (List Effect)) (tr : List Effect) (d : Int)
    (hrun : runTicks config deathFilePath initState envs = some (st, traces))
    (htick : tick config deathFilePath st env = some (st', tr))
    (hd : decoded tr = some d) :
    st'.lastDeaths = d ∧ (lastDecoded traces = some d → ∀ e ∈ tr, e.isPublish = false) := by
  have hst : st'.lastDeaths = d := by
    rw [tick_lastDeaths config deathFilePath st env st' tr htick, hd]
    rfl
  refine ⟨hst, ?_⟩
  intro hlast
  have hl := runTicks_lastDeaths config deathFilePath envs initState st traces hrun
  rw [hlast] at hl
  exact (tick_quiet config deathFilePath st env st' tr htick d hd (Or.inl hl.symm)).1

theorem length_counterRegion (d : UInt8) : (counterRegion d).length = SlotScanSize := by
  unfold counterRegion
  rw [List.length_append, length_zeros]
  simp only [List.length_cons, List.length_nil]
  decide

theorem countDeaths_counterRegion (d : UInt8) :
    countDeaths ((counterRegion d).take SlotScanSize) = (d.toNat : Int) := by
  have hm : SentinelMatch [d, 0, 0, 0, 0xFF, 0xFF, 0xFF, 0xFF, 0, 8, 0, 0] 0 :=
    ⟨by simp only [List.length_cons, List.length_nil]; decide, rfl⟩
  rw [List.take_of_length_le (by rw [length_counterRegion])]
  unfold countDeaths counterRegion
  rw [findDeaths_append_tail _ _ ⟨0, hm⟩,
    findDeaths_first _ 0 hm (fun p hp => absurd hp (Nat.not_lt_zero p))]
  simp [leValue32]

theorem readSlotData_counterSave (d : UInt8) :
    readSlotData (counterSave d) 0 = some (plainProfile (d.toNat : Int), true) := by
  have h := readSlotData_mkSave 0 (counterRegion d) (zeros SaveHeaderLength) (by decide)
    (by rw [length_counterRegion]) (by rw [length_counterRegion]; decide) (length_zeros _)
  have hn : decodeName ((zeros SaveHeaderLength).take CharNameLength) = [] := by decide
  have hl : leValue16 (zeros SaveHeaderLength) CharLevelOffset = 0 := by decide
  have hp : leValue32 (zeros SaveHeaderLength) CharPlaytimeOffset = 0 := by decide
  rw [hn, hl, hp, countDeaths_counterRegion] at h
  exact h

/-- A tick whose stat gate opens and whose first read succeeds. -/
theorem tick_success (config : Config) (dfp : String) (st : LoopState) (env : TickEnv)
    (path : String) (e0 : List Effect) (t : Int) (f : List UInt8) (p : Profile)
    (hloc : locateStep st env = (some path, e0)) (hstat : env.stat = some t)
    (hnew : t > st.lastModTime) (hopen : env.open1 = some f)
    (hread : readSlotData f config.CharacterSlot = some (p, true)) :
    tick config dfp st env = some ((commitStep config dfp st path t p).1,
      e0 ++ [Effect.stat path]
        ++ [Effect.openFile path, Effect.readSlot config.CharacterSlot (p, true),
            Effect.closeFile]
        ++ (commitStep config dfp st path t p).2) := by
  have hrs : readStep config path env = some (some (p, true),
      [Effect.openFile path, Effect.readSlot config.CharacterSlot (p, true),
        Effect.closeFile]) := by
    unfold readStep
    rw [hopen]
    simp only [hread, Option.some_bind, Bool.not_true, Bool.false_eq_true, if_false]
  unfold tick
  rw [hloc]
  simp only [hstat, hnew, decide_True, Bool.not_true, Bool.false_eq_true, if_false, hrs,
    Option.some_bind]

theorem runTicks_step (config : Config) (dfp : String) (st st1 : LoopState) (env : TickEnv)
    (envs : List TickEnv) (tr : List Effect) (h : tick config dfp st env = some (st1, tr)) :
    runTicks config dfp st (env :: envs)
      = (runTicks config dfp st1 envs).map fun rs => (rs.1, tr :: rs.2) := by
  rw [runTicks, h, Option.some_bind]

theorem tick_first_five :
    tick demoConfig "death.txt" initState (readEnv 1 (counterSave 5))
      = some (⟨"ER0000.sl2", 1, 5⟩,
          [Effect.getSavePath, Effect.printSavePath "ER0000.sl2", Effect.stat "ER0000.sl2",
            Effect.openFile "ER0000.sl2", Effect.readSlot 0 (plainProfile 5, true),
            Effect.closeFile, Effect.counterUpdate 5 [], Effect.writeFile "death.txt" 5,
            Effect.printDeaths [] 5]) := by
  have r5 : readSlotData (counterSave 5) demoConfig.CharacterSlot
      = some (plainProfile 5, true) := readSlotData_counterSave 5
  have k := tick_success demoConfig "death.txt" initState (readEnv 1 (counterSave 5))
    "ER0000.sl2" [Effect.getSavePath, Effect.printSavePath "ER0000.sl2"] 1 (counterSave 5)
    (plainProfile 5) rfl rfl (by decide) rfl r5
  have c : commitStep demoConfig "death.txt" initState "ER0000.sl2" 1 (plainProfile 5)
      = (⟨"ER0000.sl2", 1, 5⟩, [Effect.counterUpdate 5 [], Effect.writeFile "death.txt" 5,
          Effect.printDeaths [] 5]) := by decide
  rw [c] at k
  exact k

theorem tick_then_zero :
    tick demoConfig "death.txt" ⟨"ER0000.sl2", 1, 5⟩ (readEnv 2 (counterSave 0))
      = some (⟨"ER0000.sl2", 2, 0⟩,
          [Effect.stat "ER0000.sl2", Effect.openFile "ER0000.sl2",
            Effect.readSlot 0 (plainProfile 0, true), Effect.closeFile]) := by
  have r0 : readSlotData (counterSave 0) demoConfig.CharacterSlot
      = some (plainProfile 0, true) := readSlotData_counterSave 0
  have k := tick_success demoConfig "death.txt" ⟨"ER0000.sl2", 1, 5⟩
    (readEnv 2 (counterSave 0)) "ER0000.sl2" [] 2 (counterSave 0)
    (plainProfile 0) rfl rfl (by decide) rfl r0
  have c : commitStep demoConfig "death.txt" ⟨"ER0000.sl2", 1, 5⟩ "ER0000.sl2" 2
      (plainProfile 0) = (⟨"ER0000.sl2", 2, 0⟩, []) := by decide
  rw [c] at k
  exact k

theorem tick_then_five_again :
    tick demoConfig "death.txt" ⟨"ER0000.sl2", 2, 0⟩ (readEnv 3 (counterSave 5))
      = some (⟨"ER0000.sl2", 3, 5⟩,
          [Effect.stat "ER0000.sl2", Effect.openFile "ER0000.sl2",
            Effect.readSlot 0 (plainProfile 5, true), Effect.closeFile,
            Effect.counterUpdate 5 [], Effect.writeFile "death.txt" 5,
            Effect.printDeaths [] 5]) := by
  have r5 : readSlotData (counterSave 5) demoConfig.CharacterSlot
      = some (plainProfile 5, true) := readSlotData_counterSave 5
  have k := tick_success demoConfig "death.txt" ⟨"ER0000.sl2", 2, 0⟩
    (readEnv 3 (counterSave 5)) "ER0000.sl2" [] 3 (counterSave 5)
    (plainProfile 5) rfl rfl (by decide) rfl r5
  have c : commitStep demoConfig "death.txt" ⟨"ER0000.sl2", 2, 0⟩ "ER0000.sl2" 3
      (plainProfile 5) = (⟨"ER0000.sl2", 3, 5⟩, [Effect.counterUpdate 5 [],
          Effect.writeFile "death.txt" 5, Effect.printDeaths [] 5]) := by decide
  rw [c] at k
  exact k

/-- C6 (counterexample): for the observed sequence 5, 0, 5 the value 5 is handed to
`counter.Update` twice: the unpublished 0 in between replaces the remembered value. -/
theorem republished_after_zero :
    ∃ st traces,
      runTicks demoConfig "death.txt" initState
        [readEnv 1 (counterSave 5), readEnv 2 (counterSave 0), readEnv 3 (counterSave 5)]
        = some (st, traces) ∧
      traces.map decoded = [some 5, some 0, some 5] ∧
      traces.map updates = [[5], [], [5]] := by
  have hrun := runTicks_step demoConfig "death.txt" initState _
    (readEnv 1 (counterSave 5)) [readEnv 2 (counterSave 0), readEnv 3 (counterSave 5)] _
    tick_first_five
  rw [runTicks_step demoConfig "death.txt" _ _ (readEnv 2 (counterSave 0))
      [readEnv 3 (counterSave 5)] _ tick_then_zero,
    runTicks_step demoConfig "death.txt" _ _ (readEnv 3 (counterSave 5)) [] _
      tick_then_five_again, runTicks] at hrun
  simp only [Option.map_some'] at hrun
  exact ⟨_, _, hrun, by decide, by decide⟩

theorem tick_same_five :
    tick demoConfig "death.txt" ⟨"ER0000.sl2", 1, 5⟩ (readEnv 2 (counterSave 5))
      = some (⟨"ER0000.sl2", 2, 5⟩,
          [Effect.stat "ER0000.sl2", Effect.openFile "ER0000.sl2",
            Effect.readSlot 0 (plainProfile 5, true), Effect.closeFile]) := by
  have r5 : readSlotData (counterSave 5) demoConfig.CharacterSlot
      = some (plainProfile 5, true) := readSlotData_counterSave 5
  have k := tick_success demoConfig "death.txt" ⟨"ER0000.sl2", 1, 5⟩
    (readEnv 2 (counterSave 5)) "ER0000.sl2" [] 2 (counterSave 5)
    (plainProfile 5) rfl rfl (by decide) rfl r5
  have c : commitStep demoConfig "death.txt" ⟨"ER0000.sl2", 1, 5⟩ "ER0000.sl2" 2
      (plainProfile 5) = (⟨"ER0000.sl2", 2, 5⟩, []) := by decide
  rw [c] at k
  exact k

theorem tick_first_zero :
    tick demoConfig "death.txt" initState (readEnv 1 (counterSave 0))
      = some (⟨"ER0000.sl2", 1, 0⟩,
          [Effect.getSavePath, Effect.printSavePath "ER0000.sl2", Effect.stat "ER0000.sl2",
            Effect.openFile "ER0000.sl2", Effect.readSlot 0 (plainProfile 0, true),
            Effect.closeFile]) := by
  have r0 : readSlotData (counterSave 0) demoConfig.CharacterSlot
      = some (plainProfile 0, true) := readSlotData_counterSave 0
  have k := tick_success demoConfig "death.txt" initState (readEnv 1 (counterSave 0))
    "ER0000.sl2" [Effect.getSavePath, Effect.printSavePath "ER0000.sl2"] 1 (counterSave 0)
    (plainProfile 0) rfl rfl (by decide) rfl r0
  have c : commitStep demoConfig "death.txt" initState "ER0000.sl2" 1 (plainProfile 0)
      = (⟨"ER0000.sl2", 1, 0⟩, []) := by decide
  rw [c] at k
  exact k

/-- The first successful read after start-up that decodes 0 deaths: nothing is
published. -/
theorem zero_never_published_witness :
    ∃ st traces,
      runTicks demoConfig "death.txt" initState [readEnv 1 (counterSave 0)]
        = some (st, traces) ∧
      (∃ tr ∈ traces, decoded tr = some 0) ∧
      ∀ tr ∈ traces, decoded tr = some 0 → ∀ e ∈ tr, e.isPublish = false := by
  obtain ⟨st, traces, hrun, _, hz⟩ :=
    zero_never_published demoConfig "death.txt" [readEnv 1 (counterSave 0)]
  have hrun2 := runTicks_step demoConfig "death.txt" initState _
    (readEnv 1 (counterSave 0)) [] _ tick_first_zero
  rw [runTicks] at hrun2
  simp only [Option.map_some'] at hrun2
  rw [hrun2] at hrun
  obtain ⟨_, rfl⟩ := Prod.mk.inj (Option.some.inj hrun)
  exact ⟨_, _, hrun2, ⟨_, List.mem_singleton.2 rfl, by decide⟩, hz⟩

/-- Two successful reads of 5 deaths in a row: the second tick publishes nothing. -/
theorem dedup_last_observed_witness :
    ∃ st traces st' tr,
      runTicks demoConfig "death.txt" initState [readEnv 1 (counterSave 5)]
        = some (st, traces) ∧
      tick demoConfig "death.txt" st (readEnv 2 (counterSave 5)) = some (st', tr) ∧
      decoded tr = some 5 ∧ lastDecoded traces = some 5 ∧
      st'.lastDeaths = 5 ∧ ∀ e ∈ tr, e.isPublish = false := by
  have hrun := runTicks_step demoConfig "death.txt" initState _
    (readEnv 1 (counterSave 5)) [] _ tick_first_five
  rw [runTicks] at hrun
  simp only [Option.map_some'] at hrun
  have hd : decoded [Effect.stat "ER0000.sl2", Effect.openFile "ER0000.sl2",
      Effect.readSlot 0 (plainProfile 5, true), Effect.closeFile] = some 5 := by decide
  have h := dedup_last_observed demoConfig "death.txt" [readEnv 1 (counterSave 5)]
    (readEnv 2 (counterSave 5)) _ _ _ _ 5 hrun tick_same_five hd
  exact ⟨_, _, _, _, hrun, tick_same_five, hd, by decide, h.1, h.2 (by decide)⟩

theorem notifyAll_fanout (l : List Chan) (h : ∀ ch ∈ l, ch.cap = 1 ∧ ch.len ≤ ch.cap) :
    ∃ l', notifyAll l = some l' ∧ l'.map Chan.id = l.map Chan.id ∧
      ∀ ch ∈ l', ch.cap = 1 ∧ ch.len = 1 := by
  induction l with
  | nil => exact ⟨[], rfl, rfl, fun ch hch => by cases hch⟩
  | cons c rest ih =>
    obtain ⟨rest', hrest, hids, hall⟩ := ih (fun ch hch => h ch (List.mem_cons_of_mem _ hch))
    obtain ⟨hcap, hlen⟩ := h c (List.mem_cons_self _ _)
    by_cases hroom : c.len < c.cap
    · refine ⟨{ c with len := c.len + 1 } :: rest', ?_, ?_, ?_⟩
      · rw [notifyAll, selectSend, if_pos hroom, Option.some_bind, hrest]
        rfl
      · rw [List.map_cons, List.map_cons, hids]
      · intro ch hch
        rcases List.mem_cons.1 hch with rfl | hmem
        · exact ⟨hcap, by show c.len + 1 = 1; omega⟩
        · exact hall ch hmem
    · refine ⟨c :: rest', ?_, ?_, ?_⟩
      · rw [notifyAll, selectSend, if_neg hroom]
        simp only [if_true, Option.some_bind, hrest, Option.map_some']
      · rw [List.map_cons, List.map_cons, hids]
      · intro ch hch
        rcases List.mem_cons.1 hch with rfl | hmem
        · exact ⟨hcap, by omega⟩
        · exact hall ch hmem

/-- C9: on a hub whose subscriber channels have capacity 1, `Update` completes without
blocking on a subscriber, stores the new pair, keeps the list of subscribers (same
channels, same order, none dropped) and leaves exactly one pending notification in
every channel, whether the channel was empty or already full. -/
theorem Update_fanout (dc : DeathCounter) (deaths : Int) (name : List UInt8)
    (hcap : ∀ ch ∈ dc.listeners, ch.cap = 1 ∧ ch.len ≤ ch.cap) :
    ∃ dc', dc.Update deaths name = some dc' ∧ dc'.Get = (deaths, name) ∧
      dc'.listeners.map Chan.id = dc.listeners.map Chan.id ∧
      dc'.listeners.length = dc.listeners.length ∧
      ∀ ch ∈ dc'.listeners, ch.cap = 1 ∧ ch.len = 1 := by
  obtain ⟨l', hl', hids, hall⟩ := notifyAll_fanout dc.listeners hcap
  refine ⟨⟨deaths, name, l'⟩, ?_, rfl, hids, ?_, hall⟩
  · unfold DeathCounter.Update
    rw [hl']
    rfl
  · have := congrArg List.length hids
    rw [List.length_map, List.length_map] at this
    exact this

/-- A hub with an empty and a full subscriber channel: after `Update` both hold exactly
one notification. -/
theorem Update_fanout_witness :
    (∀ ch ∈ demoHub.listeners, ch.cap = 1 ∧ ch.len ≤ ch.cap) ∧
    ∃ dc', demoHub.Update 5 [0x58] = some dc' ∧ dc'.Get = (5, [0x58]) ∧
      dc'.listeners.map Chan.id = demoHub.listeners.map Chan.id ∧
      dc'.listeners.length = demoHub.listeners.length ∧
      ∀ ch ∈ dc'.listeners, ch.cap = 1 ∧ ch.len = 1 :=
  ⟨by decide, Update_fanout demoHub 5 [0x58] (by decide)⟩

/-- A channel made by `subscribe` has capacity 1 and is empty. -/
theorem subscribe_capacity (dc : DeathCounter) (id : Nat)
    (hcap : ∀ ch ∈ dc.listeners, ch.cap = 1 ∧ ch.len ≤ ch.cap) :
    ∀ ch ∈ (dc.subscribe id).1.listeners, ch.cap = 1 ∧ ch.len ≤ ch.cap := by
  intro ch hch
  unfold DeathCounter.subscribe at hch
  rcases List.mem_append.1 hch with h | h
  · exact hcap ch h
  · rw [List.mem_singleton.1 h]
    exact ⟨rfl, Nat.zero_le _⟩

/-! ### The name round trip -/

theorem toNat_ofNat_byte (n : Nat) : (UInt8.ofNat n).toNat = n % 256 := rfl

theorem codeUnits_unitsLE_append (us : List Nat) (t : List UInt8)
    (h : ∀ u ∈ us, u < 65536) : codeUnits (unitsLE us ++ t) = us ++ codeUnits t := by
  induction us with
  | nil => rfl
  | cons u us ih =>
    have hu := h u (List.mem_cons_self _ _)
    have e : (UInt8.ofNat u).toNat + 256 * (UInt8.ofNat (u >>> 8)).toNat = u := by
      rw [toNat_ofNat_byte, toNat_ofNat_byte, Nat.shiftRight_eq_div_pow]
      omega
    show codeUnits (UInt8.ofNat u :: UInt8.ofNat (u >>> 8) :: (unitsLE us ++ t)) = _
    rw [codeUnits, e, ih (fun v hv => h v (List.mem_cons_of_mem _ hv))]
    rfl

theorem codeUnits_zeros (m : Nat) : codeUnits (zeros m) = List.replicate (m / 2) 0 := by
  induction m using Nat.strong_induction_on with
  | _ m ih =>
    match m with
    | 0 => rfl
    | 1 => rfl
    | m + 2 =>
      have hz : zeros (m + 2) = 0 :: 0 :: zeros m := rfl
      have hd : (m + 2) / 2 = m / 2 + 1 := by omega
      rw [hz, codeUnits, ih m (by omega), hd, List.replicate_succ]
      rfl

theorem encodeRune16_lt (r : Nat) (_hr : IsScalar r) : ∀ u ∈ encodeRune16 r, u < 65536 := by
  intro u hu
  unfold encodeRune16 at hu
  split at hu
  · rw [List.mem_singleton.1 hu]
    simp only [surrSelf] at *
    omega
  · have h1 : ((r - surrSelf) >>> 10) &&& 0x3ff = ((r - surrSelf) >>> 10) % 2 ^ 10 :=
      Nat.and_pow_two_sub_one_eq_mod _ 10
    have h2 : (r - surrSelf) &&& 0x3ff = (r - surrSelf) % 2 ^ 10 :=
      Nat.and_pow_two_sub_one_eq_mod _ 10
    rw [h1, h2] at hu
    have hs1 : surr1 = 55296 := rfl
    have hs2 : surr2 = 56320 := rfl
    rcases List.mem_cons.1 hu with rfl | hu'
    · omega
    · rw [List.mem_singleton.1 hu']
      omega

theorem encodeUTF16_lt (name : List Nat) (hs : ∀ r ∈ name, IsScalar r) :
    ∀ u ∈ encodeUTF16 name, u < 65536 := by
  induction name with
  | nil => intro u hu; cases hu
  | cons r rs ih =>
    intro u hu
    rw [encodeUTF16] at hu
    rcases List.mem_append.1 hu with h | h
    · exact encodeRune16_lt r (hs r (List.mem_cons_self _ _)) u h
    · exact ih (fun x hx => hs x (List.mem_cons_of_mem _ hx)) u h

theorem utf16Decode_plain (r : Nat) (rest : List Nat) (h : r < surr1 ∨ surr3 ≤ r) :
    utf16Decode (r :: rest) = r :: utf16Decode rest := by
  cases rest with
  | nil => simp only [utf16Decode, h, if_true]
  | cons r2 rest => simp only [utf16Decode, h, if_true]

theorem utf16Decode_pair (r1 r2 : Nat) (rest : List Nat)
    (h1 : surr1 ≤ r1 ∧ r1 < surr2) (h2 : surr2 ≤ r2 ∧ r2 < surr3) :
    utf16Decode (r1 :: r2 :: rest) = DecodeRune r1 r2 :: utf16Decode rest := by
  have hn : ¬ (r1 < surr1 ∨ surr3 ≤ r1) := by
    simp only [surr1, surr2, surr3] at *
    omega
  rw [utf16Decode, if_neg hn, if_pos ⟨h1.1, h1.2, h2.1, h2.2⟩]

theorem utf16Decode_encodeRune16 (r : Nat) (rest : List Nat) (hr : IsScalar r) :
    utf16Decode (encodeRune16 r ++ rest) = r :: utf16Decode rest := by
  unfold encodeRune16
  split
  · next hlt =>
    apply utf16Decode_plain
    unfold IsScalar at hr
    simp only [surr1, surr3]
    omega
  · next hge =>
    have hbig : r - surrSelf < 2 ^ 20 := by
      unfold IsScalar at hr
      simp only [surrSelf] at *
      omega
    have h1 : ((r - surrSelf) >>> 10) &&& 0x3ff = (r - surrSelf) / 1024 := by
      have := Nat.and_pow_two_sub_one_eq_mod ((r - surrSelf) >>> 10) 10
      rw [Nat.shiftRight_eq_div_pow] at this
      have e : (r - surrSelf) / 2 ^ 10 &&& 0x3ff = (r - surrSelf) / 2 ^ 10 % 2 ^ 10 := this
      rw [Nat.shiftRight_eq_div_pow, e]
      omega
    have h2 : (r - surrSelf) &&& 0x3ff = (r - surrSelf) % 1024 :=
      Nat.and_pow_two_sub_one_eq_mod _ 10
    rw [h1, h2]
    have hlo : (r - surrSelf) % 1024 < 2 ^ 10 := by omega
    have hd : DecodeRune (surr1 + (r - surrSelf) / 1024) (surr2 + (r - surrSelf) % 1024) = r := by
      unfold DecodeRune
      rw [if_pos ⟨by omega, by simp only [surr1, surr2]; omega, by omega,
        by simp only [surr2, surr3]; omega⟩, Nat.add_sub_cancel_left, Nat.add_sub_cancel_left,
        Nat.shiftLeft_eq, Nat.mul_comm, ← Nat.mul_add_lt_is_or hlo]
      simp only [surrSelf] at *
      omega
    have := utf16Decode_pair (surr1 + (r - surrSelf) / 1024) (surr2 + (r - surrSelf) % 1024) rest
      ⟨by omega, by simp only [surr1, surr2]; omega⟩ ⟨by omega, by simp only [surr2, surr3]; omega⟩
    rw [hd] at this
    exact this

theorem utf16Decode_replicate_zero (k : Nat) :
    utf16Decode (List.replicate k 0) = List.replicate k 0 := by
  induction k with
  | zero => rfl
  | succ k ih =>
    rw [List.replicate_succ, utf16Decode_plain 0 _ (Or.inl (by decide)), ih]

theorem utf16Decode_encodeUTF16 (name : List Nat) (k : Nat) (hs : ∀ r ∈ name, IsScalar r) :
    utf16Decode (encodeUTF16 name ++ List.replicate k 0) = name ++ List.replicate k 0 := by
  induction name with
  | nil => exact utf16Decode_replicate_zero k
  | cons r rs ih =>
    rw [encodeUTF16, List.append_assoc,
      utf16Decode_encodeRune16 r _ (hs r (List.mem_cons_self _ _)),
      ih (fun x hx => hs x (List.mem_cons_of_mem _ hx))]
    rfl

theorem stringOfRunes_append (a b : List Nat) :
    stringOfRunes (a ++ b) = stringOfRunes a ++ stringOfRunes b := by
  induction a with
  | nil => rfl
  | cons r rs ih => rw [List.cons_append, stringOfRunes, stringOfRunes, ih, List.append_assoc]

theorem stringOfRunes_replicate_zero (k : Nat) :
    stringOfRunes (List.replicate k 0) = List.replicate k 0 := by
  induction k with
  | zero => rfl
  | succ k ih =>
    rw [List.replicate_succ, stringOfRunes, ih]
    rfl

theorem lead_byte_ne_zero : ∀ x : UInt8,
    (0xC0 : UInt8) ||| x ≠ 0 ∧ (0xE0 : UInt8) ||| x ≠ 0 ∧ (0xF0 : UInt8) ||| x ≠ 0 ∧
    (0x80 : UInt8) ||| (x &&& 0x3F) ≠ 0 := by
  rintro ⟨v⟩
  revert v
  decide

theorem encoderune_ne_zero (r : Nat) (hr : r ≠ 0) : ∀ x ∈ encoderune r, x ≠ 0 := by
  intro x hx
  unfold encoderune at hx
  split at hx
  · next h =>
    rw [List.mem_singleton.1 hx]
    intro h0
    have := congrArg UInt8.toNat h0
    rw [toNat_ofNat_byte] at this
    have h00 : (0 : UInt8).toNat = 0 := rfl
    omega
  · split at hx
    · simp only [List.mem_cons, List.mem_singleton, List.not_mem_nil, or_false] at hx
      rcases hx with rfl | rfl
      · exact (lead_byte_ne_zero _).1
      · exact (lead_byte_ne_zero _).2.2.2
    · split at hx
      · revert x
        decide
      · split at hx
        · simp only [encode3, List.mem_cons, List.mem_singleton, List.not_mem_nil,
            or_false] at hx
          rcases hx with rfl | rfl | rfl
          · exact (lead_byte_ne_zero _).2.1
          · exact (lead_byte_ne_zero _).2.2.2
          · exact (lead_byte_ne_zero _).2.2.2
        · simp only [List.mem_cons, List.mem_singleton, List.not_mem_nil, or_false] at hx
          rcases hx with rfl | rfl | rfl | rfl
          · exact (lead_byte_ne_zero _).2.2.1
          · exact (lead_byte_ne_zero _).2.2.2
          · exact (lead_byte_ne_zero _).2.2.2
          · exact (lead_byte_ne_zero _).2.2.2

theorem stringOfRunes_ne_zero (name : List Nat) (hs : ∀ r ∈ name, r ≠ 0) :
    ∀ x ∈ stringOfRunes name, x ≠ 0 := by
  induction name with
  | nil => intro x hx; cases hx
  | cons r rs ih =>
    intro x hx
    rw [stringOfRunes] at hx
    rcases List.mem_append.1 hx with h | h
    · exact encoderune_ne_zero r (hs r (List.mem_cons_self _ _)) x h
    · exact ih (fun y hy => hs y (List.mem_cons_of_mem _ hy)) x h

theorem takeWhile_nonzero_append (a : List UInt8) (k : Nat) (h : ∀ x ∈ a, x ≠ 0) :
    (a ++ List.replicate k 0).takeWhile (fun c => c != 0) = a := by
  induction a with
  | nil =>
    cases k with
    | zero => rfl
    | succ k => rw [List.nil_append, List.replicate_succ, List.takeWhile_cons]; rfl
  | cons x xs ih =>
    have hx : (x != 0) = true := bne_iff_ne.mpr (h x (List.mem_cons_self _ _))
    rw [List.cons_append, List.takeWhile_cons, hx]
    simp only [if_true]
    rw [ih (fun y hy => h y (List.mem_cons_of_mem _ hy))]

theorem length_unitsLE (us : List Nat) : (unitsLE us).length = 2 * us.length := by
  induction us with
  | nil => rfl
  | cons u us ih => simp only [unitsLE, List.length_cons, ih]; omega

theorem ofNat_mod_byte (y : Nat) : UInt8.ofNat y = UInt8.ofNat (y % 256) := by
  unfold UInt8.ofNat
  congr 1
  apply BitVec.eq_of_toNat_eq
  simp

theorem lead2_or : ∀ x, x < 32 → (0xC0 : UInt8) ||| UInt8.ofNat x = UInt8.ofNat (0xC0 + x) := by
  decide

theorem lead3_or : ∀ x, x < 16 → (0xE0 : UInt8) ||| UInt8.ofNat x = UInt8.ofNat (0xE0 + x) := by
  decide

theorem lead4_or : ∀ x, x < 8 → (0xF0 : UInt8) ||| UInt8.ofNat x = UInt8.ofNat (0xF0 + x) := by
  decide

set_option maxRecDepth 100000 in
theorem cont_or_small : ∀ z, z < 256 →
    (0x80 : UInt8) ||| (UInt8.ofNat z &&& 0x3F) = UInt8.ofNat (0x80 + z % 64) := by
  decide

theorem cont_or (y : Nat) :
    (0x80 : UInt8) ||| (UInt8.ofNat y &&& 0x3F) = UInt8.ofNat (0x80 + y % 64) := by
  rw [ofNat_mod_byte y, cont_or_small (y % 256) (Nat.mod_lt _ (by decide))]
  congr 2
  omega

/-- On a scalar value the encoder behind `string(runes)` produces the UTF-8 bytes of the
standard. -/
theorem encoderune_eq_utf8Bytes (r : Nat) (hr : IsScalar r) : encoderune r = utf8Bytes r := by
  unfold IsScalar at hr
  unfold encoderune utf8Bytes
  by_cases h1 : r ≤ 0x7F
  · have b1 : r < 0x80 := by omega
    rw [if_pos h1, if_pos b1]
  have b1 : ¬ r < 0x80 := by omega
  by_cases h2 : r ≤ 0x7FF
  · have b2 : r < 0x800 := by omega
    rw [if_neg h1, if_pos h2, if_neg b1, if_pos b2, Nat.shiftRight_eq_div_pow,
      lead2_or _ (by omega), cont_or]
  have b2 : ¬ r < 0x800 := by omega
  have hsur : ¬ (r > 0x10FFFF ∨ (0xD800 ≤ r ∧ r ≤ 0xDFFF)) := by omega
  by_cases h3 : r ≤ 0xFFFF
  · have b3 : r < 0x10000 := by omega
    rw [if_neg h1, if_neg h2, if_neg hsur, if_pos h3, if_neg b1, if_neg b2, if_pos b3]
    unfold encode3
    rw [Nat.shiftRight_eq_div_pow, Nat.shiftRight_eq_div_pow, lead3_or _ (by omega),
      cont_or, cont_or]
  · have b3 : ¬ r < 0x10000 := by omega
    rw [if_neg h1, if_neg h2, if_neg hsur, if_neg h3, if_neg b1, if_neg b2, if_neg b3,
      Nat.shiftRight_eq_div_pow, Nat.shiftRight_eq_div_pow,
      Nat.shiftRight_eq_div_pow, lead4_or _ (by omega), cont_or, cont_or, cont_or]

theorem shiftRight6_toNat (v : UInt32) : (v >>> 6).toNat = v.toNat / 64 := by
  show (v.toBitVec >>> ((UInt32.mod 6 32).toBitVec).toNat).toNat = _
  rw [BitVec.toNat_ushiftRight]
  exact Nat.shiftRight_eq_div_pow _ 6

theorem shiftRight12_toNat (v : UInt32) : (v >>> 12).toNat = v.toNat / 4096 := by
  show (v.toBitVec >>> ((UInt32.mod 12 32).toBitVec).toNat).toNat = _
  rw [BitVec.toNat_ushiftRight]
  exact Nat.shiftRight_eq_div_pow _ 12

theorem shiftRight18_toNat (v : UInt32) : (v >>> 18).toNat = v.toNat / 262144 := by
  show (v.toBitVec >>> ((UInt32.mod 18 32).toBitVec).toNat).toNat = _
  rw [BitVec.toNat_ushiftRight]
  exact Nat.shiftRight_eq_div_pow _ 18

theorem core_lead2 : ∀ x, x < 32 → UInt8.ofNat x &&& 31 ||| 192 = UInt8.ofNat (0xC0 + x) := by
  decide

theorem core_lead3 : ∀ x, x < 16 → UInt8.ofNat x &&& 15 ||| 224 = UInt8.ofNat (0xE0 + x) := by
  decide

theorem core_lead4 : ∀ x, x < 8 → UInt8.ofNat x &&& 7 ||| 240 = UInt8.ofNat (0xF0 + x) := by
  decide

set_option maxRecDepth 100000 in
theorem core_cont_small : ∀ z, z < 256 →
    UInt8.ofNat z &&& 63 ||| 128 = UInt8.ofNat (0x80 + z % 64) := by
  decide

theorem core_cont (y : Nat) : UInt8.ofNat y &&& 63 ||| 128 = UInt8.ofNat (0x80 + y % 64) := by
  rw [ofNat_mod_byte y, core_cont_small (y % 256) (Nat.mod_lt _ (by decide))]
  congr 2
  omega

/-- The UTF-8 table `utf8Bytes` is the encoder of Lean's own `String.toUTF8`. -/
theorem utf8EncodeChar_eq_utf8Bytes (c : Char) :
    String.utf8EncodeChar c = utf8Bytes c.toNat := by
  have hv : c.toNat < 55296 ∨ 57343 < c.toNat ∧ c.toNat < 1114112 := c.valid
  have g1 : c.val ≤ 127 ↔ c.toNat ≤ 127 := by
    rw [UInt32.le_def, BitVec.le_def]; rfl
  have g2 : c.val ≤ 2047 ↔ c.toNat ≤ 2047 := by
    rw [UInt32.le_def, BitVec.le_def]; rfl
  have g3 : c.val ≤ 65535 ↔ c.toNat ≤ 65535 := by
    rw [UInt32.le_def, BitVec.le_def]; rfl
  have e0 : c.val.toUInt8 = UInt8.ofNat c.toNat := rfl
  have e6 : (c.val >>> 6).toUInt8 = UInt8.ofNat (c.toNat / 64) := by
    show UInt8.ofNat (c.val >>> 6).toNat = _
    rw [shiftRight6_toNat]; rfl
  have e12 : (c.val >>> 12).toUInt8 = UInt8.ofNat (c.toNat / 4096) := by
    show UInt8.ofNat (c.val >>> 12).toNat = _
    rw [shiftRight12_toNat]; rfl
  have e18 : (c.val >>> 18).toUInt8 = UInt8.ofNat (c.toNat / 262144) := by
    show UInt8.ofNat (c.val >>> 18).toNat = _
    rw [shiftRight18_toNat]; rfl
  unfold String.utf8EncodeChar utf8Bytes
  simp only [e0, e6, e12, e18]
  by_cases h1 : c.toNat ≤ 127
  · have b1 : c.toNat < 0x80 := by omega
    rw [if_pos (g1.2 h1), if_pos b1]
  have b1 : ¬ c.toNat < 0x80 := by omega
  have a1 : ¬ c.val ≤ 127 := fun h => h1 (g1.1 h)
  by_cases h2 : c.toNat ≤ 2047
  · have b2 : c.toNat < 0x800 := by omega
    rw [if_neg a1, if_pos (g2.2 h2), if_neg b1, if_pos b2, core_lead2 _ (by omega), core_cont]
  have b2 : ¬ c.toNat < 0x800 := by omega
  have a2 : ¬ c.val ≤ 2047 := fun h => h2 (g2.1 h)
  by_cases h3 : c.toNat ≤ 65535
  · have b3 : c.toNat < 0x10000 := by omega
    rw [if_neg a1, if_neg a2, if_pos (g3.2 h3), if_neg b1, if_neg b2, if_pos b3,
      core_lead3 _ (by omega), core_cont, core_cont]
  · have b3 : ¬ c.toNat < 0x10000 := by omega
    have a3 : ¬ c.val ≤ 65535 := fun h => h3 (g3.1 h)
    rw [if_neg a1, if_neg a2, if_neg a3, if_neg b1, if_neg b2, if_neg b3,
      core_lead4 _ (by omega), core_cont, core_cont, core_cont]

theorem isScalar_toNat (c : Char) : IsScalar c.toNat := by
  have hv : c.toNat < 55296 ∨ 57343 < c.toNat ∧ c.toNat < 1114112 := c.valid
  unfold IsScalar
  omega

/-- The conversion `string(runes)` of the code points of a list of characters is the
UTF-8 encoding of the characters, as `String.toUTF8` computes it. -/
theorem stringOfRunes_toNat (name : List Char) :
    stringOfRunes (name.map Char.toNat) = name.flatMap String.utf8EncodeChar := by
  induction name with
  | nil => rfl
  | cons c cs ih =>
    have hf : (c :: cs).flatMap String.utf8EncodeChar
        = String.utf8EncodeChar c ++ cs.flatMap String.utf8EncodeChar := by
      simp [List.flatMap]
    rw [List.map_cons, stringOfRunes, ih, hf, encoderune_eq_utf8Bytes _ (isScalar_toNat c),
      utf8EncodeChar_eq_utf8Bytes]

/-- C5: a name given as a list of characters (Unicode scalar values) without U+0000,
whose UTF-16 encoding has at most `CharNameLength / 2 = 17` code units, written as
UTF-16LE bytes and padded with NUL bytes, fills the `CharNameLength` bytes of the name
field, and `decodeUTF16` of that field is the UTF-8 encoding of the name (the bytes of
`(String.mk name).toUTF8`, which is how a Go string holds the name), surrogate pairs
included. -/
theorem name_roundtrip (name : List Char) (h0 : ∀ c ∈ name, c.toNat ≠ 0)
    (hlen : (encodeUTF16 (name.map Char.toNat)).length ≤ CharNameLength / 2) :
    (padName (unitsLE (encodeUTF16 (name.map Char.toNat)))).length = CharNameLength ∧
    decodeUTF16 (padName (unitsLE (encodeUTF16 (name.map Char.toNat))))
      = some (name.flatMap String.utf8EncodeChar) := by
  have hs : ∀ r ∈ name.map Char.toNat, IsScalar r := by
    intro r hr
    obtain ⟨c, _, rfl⟩ := List.mem_map.1 hr
    exact isScalar_toNat c
  have hnz : ∀ r ∈ name.map Char.toNat, r ≠ 0 := by
    intro r hr
    obtain ⟨c, hc, rfl⟩ := List.mem_map.1 hr
    exact h0 c hc
  constructor
  · unfold padName
    rw [List.length_append, length_zeros, length_unitsLE]
    simp only [CharNameLength] at *
    omega
  · rw [decodeUTF16_eq]
    unfold padName
    rw [codeUnits_unitsLE_append _ _ (encodeUTF16_lt _ hs),
      codeUnits_zeros, utf16Decode_encodeUTF16 _ _ hs,
      stringOfRunes_append, stringOfRunes_replicate_zero,
      takeWhile_nonzero_append _ _ (stringOfRunes_ne_zero _ hnz), stringOfRunes_toNat]

/-- The name `T`, `é`, U+892A, U+1F600 takes five code units; its field decodes to the
ten bytes `54 | C3 A9 | E8 A4 AA | F0 9F 98 80` of its UTF-8 encoding. -/
theorem name_roundtrip_witness :
    (∀ c ∈ demoName, c.toNat ≠ 0) ∧
    (encodeUTF16 (demoName.map Char.toNat)).length ≤ CharNameLength / 2 ∧
    encodeUTF16 (demoName.map Char.toNat) = [0x54, 0xE9, 0x892A, 0xD83D, 0xDE00] ∧
    demoName.flatMap String.utf8EncodeChar
      = [0x54, 0xC3, 0xA9, 0xE8, 0xA4, 0xAA, 0xF0, 0x9F, 0x98, 0x80] ∧
    (padName (unitsLE (encodeUTF16 (demoName.map Char.toNat)))).length = CharNameLength ∧
    decodeUTF16 (padName (unitsLE (encodeUTF16 (demoName.map Char.toNat))))
      = some [0x54, 0xC3, 0xA9, 0xE8, 0xA4, 0xAA, 0xF0, 0x9F, 0x98, 0x80] := by
  have h1 : ∀ c ∈ demoName, c.toNat ≠ 0 := by decide
  have h2 : (encodeUTF16 (demoName.map Char.toNat)).length ≤ CharNameLength / 2 := by decide
  have h3 : demoName.flatMap String.utf8EncodeChar
      = [0x54, 0xC3, 0xA9, 0xE8, 0xA4, 0xAA, 0xF0, 0x9F, 0x98, 0x80] := by decide
  have h := name_roundtrip demoName h1 h2
  rw [h3] at h
  exact ⟨h1, h2, by decide, h3, h.1, h.2⟩

end EldenRingDC
